import Mathlib

/-!
Verification development for the langlang PEG toolchain (peg.py).

This file gives a shallow embedding of the program:
the lexer (class Parser, lexing methods), the recursive-descent AST
builder, the direct matcher (class Match), the capture analyzer
(markCaptures and friends) and the bytecode compiler
(class Compiler, gen, genCode, assemble).

Conventions of the embedding:
* the source input is a `List Char` indexed by a cursor `pos : Nat`,
  mirroring the string/cursor pair of the Python classes;
* Python methods that mutate `self` become functions threading an
  explicit state value;
* loops that the source can run forever (for instance `lexRange` on an
  unterminated class) are written with an explicit fuel argument; a
  `none` result means the fuel ran out, i.e. the modelled run has not
  terminated within that budget;
* Python exceptions (`SyntaxError`, `KeyError`, ...) are modelled with
  `Except String`;
* machine integers of the bytecode are plain `Nat`/`Int` with explicit
  `% 2 ^ 27` masking exactly where the source masks.
-/

/-- Backslash character (escape introducer in the lexer). -/
def bsC : Char := Char.ofNat 92

/-- Single-quote character (Literal delimiter). -/
def sqC : Char := Char.ofNat 39

/-- Double-quote character (String delimiter). -/
def dqC : Char := Char.ofNat 34

/-- Newline character. -/
def nlC : Char := Char.ofNat 10

/-- Carriage-return character. -/
def crC : Char := Char.ofNat 13

/-- Tab character. -/
def tabC : Char := Char.ofNat 9

/-- Opening curly bracket. -/
def obC : Char := Char.ofNat 123

/-- Closing curly bracket. -/
def cbC : Char := Char.ofNat 125

/-- Wrap a string in single quotes (to spell grammar sources). -/
def q1 (s : String) : String := String.mk (sqC :: (s.toList ++ [sqC]))

/-- One entry of a CLASS token payload: `lexRange` builds either a
`[lo, hi]` pair (a two-element Python list) or a bare character.  The
fields are `Option Char` because the source's `lexChar` returns Python
`None` when it reads past the end of input (that value can enter the
accumulating lists of `lexRange`, although no terminating run ever
returns it in a payload). -/
inductive ClassItem where
  | range (lo hi : Option Char)
  | single (c : Option Char)
deriving DecidableEq, Repr

/-- Token kinds: the `TokenTypes` enum of the source, same names. -/
inductive TT where
  | IDENTIFIER | LITERAL | ARROW | PLUS | STAR | PRIORITY | QUESTION
  | AND | DOT | NOT | QUIET | CLASS | STRING | OPEN | CLOSE
  | OPCB | CLCB | OPLS | OPCAP | LABEL | END
deriving DecidableEq, Repr

/-- Printable name of a token kind (used by `consumet` error messages,
mirroring `t.name` on the Python enum). -/
def ttName : TT → String
  | .IDENTIFIER => "IDENTIFIER" | .LITERAL => "LITERAL" | .ARROW => "ARROW"
  | .PLUS => "PLUS" | .STAR => "STAR" | .PRIORITY => "PRIORITY"
  | .QUESTION => "QUESTION" | .AND => "AND" | .DOT => "DOT" | .NOT => "NOT"
  | .QUIET => "QUIET" | .CLASS => "CLASS" | .STRING => "STRING"
  | .OPEN => "OPEN" | .CLOSE => "CLOSE" | .OPCB => "OPCB" | .CLCB => "CLCB"
  | .OPLS => "OPLS" | .OPCAP => "OPCAP" | .LABEL => "LABEL" | .END => "END"

/-- Token payload: Python stores `None`, a string, or (for CLASS) the
list built by `lexRange`. -/
inductive TokVal where
  | none
  | str (s : String)
  | items (l : List ClassItem)
deriving DecidableEq, Repr

/-- A token: kind, payload, and source position `(line, pos)` exactly as
`Token.__init__` records them. -/
structure Token where
  t : TT
  v : TokVal
  line : Nat
  pos : Nat
deriving DecidableEq, Repr

/-- Lexer-visible state of class `Parser`: cursor, line counter and the
start offset of the current token. -/
structure LState where
  pos : Nat
  line : Nat
  tokenStart : Nat
deriving DecidableEq, Repr

/-- `Parser.peekc` (with the default offset 0): the character at the
cursor, or `none` past the end. -/
def peekc (code : List Char) (pos : Nat) : Option Char := code.get? pos

/-- Hex-digit test of `Parser.isHex`: a (ASCII) digit or a letter in
`a..f` after lowercasing.  The source uses Python's Unicode-aware
`isdigit`; only ASCII digits occur in grammars, and the embedding uses
the ASCII test. -/
def isHexC (c : Char) : Bool := c.isDigit || ('a' ≤ c.toLower && c.toLower ≤ 'f')

/-- Numeric value of a hex digit, as `int(s, 16)` assigns it. -/
def hexVal (c : Char) : Nat :=
  if c.isDigit then c.toNat - '0'.toNat else c.toLower.toNat - 'a'.toNat + 10

/-- The digit-collection loop of `Parser.lexHex`: consume a maximal run
of hex digits.  The loop is bounded by the input length; the fuel only
serves the uniform style, `none` meaning the budget ran out. -/
def lexHexDigits (code : List Char) : Nat → Nat → Option (List Char × Nat)
  | 0, _ => none
  | fuel + 1, pos =>
    match peekc code pos with
    | some c =>
      if isHexC c then
        match lexHexDigits code fuel (pos + 1) with
        | some (ds, p) => some (c :: ds, p)
        | none => none
      else some ([], pos)
    | none => some ([], pos)

/-- `Parser.lexHex`: join the digits and convert with `chr(int(_, 16))`.
With no digits Python's `int('')` raises; `chr` raises on values past
0x10FFFF.  Python's `chr` also accepts surrogate code points, which Lean
`Char` cannot carry; such escapes occur in no grammar and the embedding
reports them as errors. -/
def lexHex (code : List Char) (fuel pos : Nat) : Option (Except String (Char × Nat)) :=
  match lexHexDigits code fuel pos with
  | none => none
  | some (ds, p) =>
    match ds with
    | [] => some (.error "ValueError")
    | _ =>
      let v := ds.foldl (fun acc c => acc * 16 + hexVal c) 0
      if v < 0xD800 || (0xE000 ≤ v && v < 0x110000) then some (.ok (Char.ofNat v, p))
      else some (.error "chr out of range")

/-- `Parser.lexChar`: one (possibly escaped) character.  Returns the
character (or `none`, the Python `None` that falls out when the cursor
is at end of input — note the source builds a `SyntaxError` on
end-of-input after a backslash but forgets to raise it, so that path
also falls through to `value = self.peekc(); self.nextc()`) together
with the new cursor. -/
def lexChar (code : List Char) (fuel pos : Nat) : Option (Except String (Option Char × Nat)) :=
  if peekc code pos = some bsC then
    let p := pos + 1
    match peekc code p with
    | some c =>
      if c = 'n' then some (.ok (some nlC, p + 1))
      else if c = 'r' then some (.ok (some crC, p + 1))
      else if c = 't' then some (.ok (some tabC, p + 1))
      else if c = sqC then some (.ok (some sqC, p + 1))
      else if c = dqC then some (.ok (some dqC, p + 1))
      else if c = '[' then some (.ok (some '[', p + 1))
      else if c = ']' then some (.ok (some ']', p + 1))
      else if c = '-' then some (.ok (some '-', p + 1))
      else if c = bsC then some (.ok (some bsC, p + 1))
      else if c = 'x' then
        match lexHex code fuel (p + 1) with
        | none => none
        | some (.error e) => some (.error e)
        | some (.ok (ch, p2)) => some (.ok (some ch, p2))
      else some (.error "Unknown escape char")
    | none => some (.ok (none, p + 1))
  else
    some (.ok (peekc code pos, pos + 1))

/-- The body loop of `Parser.lexLiteral`: `while self.peekc() and not
self.testc(end): output.append(self.lexChar())`.  A `None` from
`lexChar` can only arise at end of input, after which the guard fails
and the closing-delimiter check raises, so a surviving accumulator never
holds `None`; the embedding drops such a value (the source would crash
in `''.join` were it ever joined). -/
def lexLiteralLoop (code : List Char) (endC : Char) :
    Nat → Nat → List Char → Option (Except String (List Char × Nat))
  | 0, _, _ => none
  | fuel + 1, pos, acc =>
    match peekc code pos with
    | none =>
      -- guard `self.peekc()` is falsy: exit the loop
      some (.ok (acc, pos))
    | some c =>
      if c = endC then some (.ok (acc, pos))
      else
        match lexChar code fuel pos with
        | none => none
        | some (.error e) => some (.error e)
        | some (.ok (some ch, p)) => lexLiteralLoop code endC fuel p (acc ++ [ch])
        | some (.ok (none, p)) => lexLiteralLoop code endC fuel p acc

/-- `Parser.lexLiteral`: lex the body, then `if not self.matchc(end):
raise SyntaxError("Expected end of string")`. -/
def lexLiteral (code : List Char) (endC : Char) (fuel pos : Nat) :
    Option (Except String (String × Nat)) :=
  match lexLiteralLoop code endC fuel pos [] with
  | none => none
  | some (.error e) => some (.error e)
  | some (.ok (cs, p)) =>
    if peekc code p = some endC then some (.ok (String.mk cs, p + 1))
    else some (.error "Expected end of string")

/-- The `while not self.testc(']')` loop of `Parser.lexRange`, with the
two accumulators `ranges` and `chars` (the source appends ranges to one
list and bare characters to the other, and returns `ranges + chars`).
There is no end-of-input guard in the source: on input with no `]`
ahead, the loop never exits, which here surfaces as `none` for every
fuel. -/
def lexRangeLoop (code : List Char) :
    Nat → Nat → List ClassItem → List ClassItem → Option (Except String (List ClassItem × Nat))
  | 0, _, _, _ => none
  | fuel + 1, pos, ranges, chars =>
    if peekc code pos = some ']' then
      -- loop exit; the following `self.matchc(']')` necessarily succeeds
      -- (the source's "Expected end of class" raise is unreachable)
      some (.ok (ranges ++ chars, pos + 1))
    else
      match lexChar code fuel pos with
      | none => none
      | some (.error e) => some (.error e)
      | some (.ok (left, p1)) =>
        if peekc code p1 = some '-' then
          match lexChar code fuel (p1 + 1) with
          | none => none
          | some (.error e) => some (.error e)
          | some (.ok (right, p2)) =>
            lexRangeLoop code fuel p2 (ranges ++ [.range left right]) chars
        else
          lexRangeLoop code fuel p1 ranges (chars ++ [.single left])

/-- The identifier loop: `while self.peekc() and (isalnum or '_')`.
ASCII `isAlphanum` stands in for Python's Unicode-aware test. -/
def identLoop (code : List Char) : Nat → Nat → Option Nat
  | 0, _ => none
  | fuel + 1, pos =>
    match peekc code pos with
    | some c => if c.isAlphanum || c = '_' then identLoop code fuel (pos + 1) else some pos
    | none => some pos

/-- `Parser.cleanspaces`: skip whitespace, counting newlines. -/
def cleanspaces (code : List Char) : Nat → Nat → Nat → Option (Nat × Nat)
  | 0, _, _ => none
  | fuel + 1, pos, line =>
    match peekc code pos with
    | some c =>
      if c.isWhitespace then
        if c = nlC then cleanspaces code fuel (pos + 1) (line + 1)
        else cleanspaces code fuel (pos + 1) line
      else some (pos, line)
    | none => some (pos, line)

/-- The comment-consumption loop inside `Parser.spacing`:
`while not self.testc(newline) and self.peekc(): self.nextc()`. -/
def commentSkip (code : List Char) : Nat → Nat → Option Nat
  | 0, _ => none
  | fuel + 1, pos =>
    match peekc code pos with
    | none => some pos
    | some c => if c = nlC then some pos else commentSkip code fuel (pos + 1)

/-- The `while self.matchc('#')` loop of `Parser.spacing`. -/
def spacingLoop (code : List Char) : Nat → Nat → Nat → Option (Nat × Nat)
  | 0, _, _ => none
  | fuel + 1, pos, line =>
    if peekc code pos = some '#' then
      match commentSkip code fuel (pos + 1) with
      | none => none
      | some p1 =>
        match cleanspaces code fuel p1 line with
        | none => none
        | some (p2, l2) => spacingLoop code fuel p2 l2
    else some (pos, line)

/-- `Parser.spacing`: whitespace, then repeated comments. -/
def spacing (code : List Char) (fuel pos line : Nat) : Option (Nat × Nat) :=
  match cleanspaces code fuel pos line with
  | none => none
  | some (p1, l1) => spacingLoop code fuel p1 l1

/-- Substring `code[a:b]` as a `String` (Python slice). -/
def sliceStr (code : List Char) (a b : Nat) : String :=
  String.mk ((code.drop a).take (b - a))

/-- `Parser.lex`: skip spacing, record `token_start`, and dispatch on
the current character through the source's `if/elif` chain.  Errors are
the source's `SyntaxError`s. -/
def lex (code : List Char) (fuel : Nat) (st : LState) : Option (Except String (Token × LState)) :=
  match spacing code fuel st.pos st.line with
  | none => none
  | some (pos, line) =>
    let mkT : TT → TokVal → Nat → Token × LState := fun tt v newPos =>
      (⟨tt, v, line, pos⟩, ⟨newPos, line, pos⟩)
    match peekc code pos with
    | none => some (.ok (mkT .END .none pos))
    | some c =>
      if c.isAlpha || c = '_' then
        match identLoop code fuel pos with
        | none => none
        | some p2 => some (.ok (mkT .IDENTIFIER (.str (sliceStr code pos p2)) p2))
      else if c = sqC then
        match lexLiteral code sqC fuel (pos + 1) with
        | none => none
        | some (.error e) => some (.error e)
        | some (.ok (s, p2)) => some (.ok (mkT .LITERAL (.str s) p2))
      else if c = dqC then
        match lexLiteral code dqC fuel (pos + 1) with
        | none => none
        | some (.error e) => some (.error e)
        | some (.ok (s, p2)) => some (.ok (mkT .STRING (.str s) p2))
      else if c = '[' then
        match lexRangeLoop code fuel (pos + 1) [] [] with
        | none => none
        | some (.error e) => some (.error e)
        | some (.ok (items, p2)) => some (.ok (mkT .CLASS (.items items) p2))
      else if c = '<' then
        if peekc code (pos + 1) = some '-' then some (.ok (mkT .ARROW .none (pos + 2)))
        else some (.error "Missing the dash in the arrow")
      else if c = '(' then some (.ok (mkT .OPEN .none (pos + 1)))
      else if c = ')' then some (.ok (mkT .CLOSE .none (pos + 1)))
      else if c = '/' then some (.ok (mkT .PRIORITY .none (pos + 1)))
      else if c = '.' then some (.ok (mkT .DOT .none (pos + 1)))
      else if c = '*' then some (.ok (mkT .STAR .none (pos + 1)))
      else if c = '+' then some (.ok (mkT .PLUS .none (pos + 1)))
      else if c = '!' then some (.ok (mkT .NOT .none (pos + 1)))
      else if c = '&' then some (.ok (mkT .AND .none (pos + 1)))
      else if c = '?' then some (.ok (mkT .QUESTION .none (pos + 1)))
      else if c = ';' then some (.ok (mkT .QUIET .none (pos + 1)))
      else if c = '^' then some (.ok (mkT .LABEL .none (pos + 1)))
      else if c = obC then some (.ok (mkT .OPLS .none (pos + 1)))
      else if c = cbC then some (.ok (mkT .CLCB .none (pos + 1)))
      else if c = '%' then
        if peekc code (pos + 1) = some obC then some (.ok (mkT .OPCB .none (pos + 2)))
        else some (.ok (mkT .OPCAP .none (pos + 1)))
      else some (.error "Unexpected char")

/-- AST node variants of the source (classes deriving `Node`).  The
`cap` flag on `Literal`, `Class` and `Dot` models the dynamic `capture`
attribute that `markTerminals` sets (absent attribute = `false`); the
compiler reads it only on those three variants (it sets but never reads
it on `String` nodes).  Two extra variants encode Python values that the
parser can place in node positions: `pyNone` for `None` and `rawList`
for a bare Python list (what `fio` returns for an empty sequence and
what `()` produces); both make `matchAtom`/`compileAtom` raise, exactly
as the source does.  The `String` node variant is named `Str` and the
`List` node variant `ListN` to avoid clashing with the Lean types. -/
inductive AST where
  | And (a : AST)
  | Not (a : AST)
  | Question (a : AST)
  | Star (a : AST)
  | Plus (a : AST)
  | Expression (alts : List AST)
  | CaptureBlock (a : AST)
  | CaptureNode (a : AST)
  | Sequence (l : List AST)
  | Identifier (name : String)
  | Literal (s : String) (cap : Bool)
  | Str (s : String)
  | Class (items : List ClassItem) (cap : Bool)
  | Dot (cap : Bool)
  | Label (name : String) (a : AST)
  | Throw (name : String)
  | ListN (l : List AST)
  | pyNone
  | rawList (l : List AST)
deriving Repr

/-- A `Definition` node: its Python `value` is the two-element list
`[name, expression]`. -/
structure PDef where
  name : String
  expr : AST
deriving Repr

/-- `fio` ("first if only") of the source, at the type used by the
parser: a one-element list collapses to its element, anything else
stays a raw list. -/
def fioAst (l : List AST) : AST :=
  match l with
  | [x] => x
  | _ => .rawList l

/-- Python `None`-or-node as stored into a parent node's value slot:
`Question(None)` and friends wrap `pyNone`. -/
def astOrNone (o : Option AST) : AST := o.getD .pyNone

/-- Parser state of class `Parser`: lexer state plus the current token
(`self.token`). -/
structure PState where
  pos : Nat
  line : Nat
  tokenStart : Nat
  token : Token
deriving Repr

/-- `Parser.nextt`: lex one token and store it as current. -/
def nextt (code : List Char) (fuel : Nat) (st : PState) : Option (Except String PState) :=
  match lex code fuel ⟨st.pos, st.line, st.tokenStart⟩ with
  | none => none
  | some (.error e) => some (.error e)
  | some (.ok (tok, ls)) => some (.ok ⟨ls.pos, ls.line, ls.tokenStart, tok⟩)

/-- `Parser.peekt`: speculative lex.  The source saves and restores only
`self.pos`; the line counter and `token_start` keep whatever values the
speculative lex left, and the embedding preserves that. -/
def peekt (code : List Char) (fuel : Nat) (st : PState) : Option (Except String (Token × PState)) :=
  match lex code fuel ⟨st.pos, st.line, st.tokenStart⟩ with
  | none => none
  | some (.error e) => some (.error e)
  | some (.ok (tok, ls)) => some (.ok (tok, ⟨st.pos, ls.line, ls.tokenStart, st.token⟩))

/-- `Parser.matcht`: if the current token has the requested kind, return
it and advance; otherwise return `none` (Python `False`) and leave the
state alone. -/
def matcht (code : List Char) (fuel : Nat) (st : PState) (t : TT) :
    Option (Except String (Option Token × PState)) :=
  if st.token.t = t then
    match nextt code fuel st with
    | none => none
    | some (.error e) => some (.error e)
    | some (.ok st') => some (.ok (some st.token, st'))
  else some (.ok (none, st))

/-- `Parser.consumet`: like `matcht` but raising `Expected X but found
Y` on mismatch. -/
def consumet (code : List Char) (fuel : Nat) (st : PState) (t : TT) :
    Option (Except String (Token × PState)) :=
  match matcht code fuel st t with
  | none => none
  | some (.error e) => some (.error e)
  | some (.ok (some tok, st')) => some (.ok (tok, st'))
  | some (.ok (none, st')) =>
    some (.error ("Expected " ++ ttName t ++ " but found " ++ ttName st'.token.t))

/-- String payload of a token (IDENTIFIER/LITERAL/STRING carry one). -/
def tokStr (tok : Token) : String :=
  match tok.v with
  | .str s => s
  | _ => ""

/-- CLASS payload of a token. -/
def tokItems (tok : Token) : List ClassItem :=
  match tok.v with
  | .items l => l
  | _ => []

/-- Work items for the recursive-descent functions of class `Parser`;
one constructor per loop/function so that the whole parser is a single
fuel-indexed recursion. -/
inductive PTask where
  | pDefs (acc : List PDef)
  | pDef
  | pExpr
  | pExprLoop (acc : List AST)
  | pSeq (acc : List AST)
  | pLabeled
  | pSuffix
  | pPrimary
  | pPrimaryRest
  | pListLoop (acc : List AST)

/-- Results of the parse tasks: an optional AST (Python functions that
can return `None`), one definition, or the definition list. -/
inductive POut where
  | oast (o : Option AST)
  | pdefOut (d : PDef)
  | defsOut (l : List PDef)

/-- The recursive-descent parser: `parseDefinitions`, `parseDefinition`,
`parseExpression`, `parseSequence`, `parseLabeled`, `parseSuffix`,
`parsePrimary` and the body loop of the `{...}` list form, written as
one fueled recursion over `PTask`.  Shapes of the results follow the
source exactly, including `fio` collapsing and the `None` propagation
described at `AST.pyNone`. -/
def parseGo (code : List Char) : Nat → PState → PTask → Option (Except String (POut × PState))
  | 0, _, _ => none
  | fuel + 1, st, task =>
    match task with
    | .pDefs acc =>
      -- while not self.testt(END): definitions.append(self.parseDefinition())
      -- (`if not definition: break` can never fire: a Definition is truthy)
      if st.token.t = .END then some (.ok (.defsOut acc, st))
      else
        match parseGo code fuel st .pDef with
        | none => none
        | some (.error e) => some (.error e)
        | some (.ok (.pdefOut d, st1)) => parseGo code fuel st1 (.pDefs (acc ++ [d]))
        | some (.ok (_, _)) => some (.error "InternalShape")
    | .pDef =>
      match consumet code fuel st .IDENTIFIER with
      | none => none
      | some (.error e) => some (.error e)
      | some (.ok (idTok, st1)) =>
        match consumet code fuel st1 .ARROW with
        | none => none
        | some (.error e) => some (.error e)
        | some (.ok (_, st2)) =>
          match parseGo code fuel st2 .pExpr with
          | none => none
          | some (.error e) => some (.error e)
          | some (.ok (.oast o, st3)) =>
            some (.ok (.pdefOut ⟨tokStr idTok, astOrNone o⟩, st3))
          | some (.ok (_, _)) => some (.error "InternalShape")
    | .pExpr =>
      match parseGo code fuel st (.pSeq []) with
      | none => none
      | some (.error e) => some (.error e)
      | some (.ok (.oast o, st1)) => parseGo code fuel st1 (.pExprLoop [astOrNone o])
      | some (.ok (_, _)) => some (.error "InternalShape")
    | .pExprLoop acc =>
      match matcht code fuel st .PRIORITY with
      | none => none
      | some (.error e) => some (.error e)
      | some (.ok (some _, st1)) =>
        match parseGo code fuel st1 (.pSeq []) with
        | none => none
        | some (.error e) => some (.error e)
        | some (.ok (.oast o, st2)) => parseGo code fuel st2 (.pExprLoop (acc ++ [astOrNone o]))
        | some (.ok (_, _)) => some (.error "InternalShape")
      | some (.ok (none, st1)) => some (.ok (.oast (some (.Expression acc)), st1))
    | .pSeq acc =>
      -- prefix = identity / And / Not, then parseLabeled; break when it
      -- returns None (a consumed prefix token is then discarded, as in
      -- the source)
      match matcht code fuel st .AND with
      | none => none
      | some (.error e) => some (.error e)
      | some (.ok (andTok, st1)) =>
        match (if andTok.isSome then some (.ok ((none : Option Token), st1))
               else matcht code fuel st1 .NOT) with
        | none => none
        | some (.error e) => some (.error e)
        | some (.ok (notTok, st2)) =>
          let pfx : AST → AST :=
            if andTok.isSome then .And else if notTok.isSome then .Not else id
          match parseGo code fuel st2 .pLabeled with
          | none => none
          | some (.error e) => some (.error e)
          | some (.ok (.oast none, st3)) =>
            -- break; then `Sequence(output) if len > 1 else fio(output)`
            some (.ok (.oast (some (if acc.length > 1 then .Sequence acc else fioAst acc)), st3))
          | some (.ok (.oast (some a), st3)) => parseGo code fuel st3 (.pSeq (acc ++ [pfx a]))
          | some (.ok (_, _)) => some (.error "InternalShape")
    | .pLabeled =>
      match parseGo code fuel st .pSuffix with
      | none => none
      | some (.error e) => some (.error e)
      | some (.ok (.oast o, st1)) =>
        match matcht code fuel st1 .LABEL with
        | none => none
        | some (.error e) => some (.error e)
        | some (.ok (some _, st2)) =>
          match consumet code fuel st2 .IDENTIFIER with
          | none => none
          | some (.error e) => some (.error e)
          | some (.ok (labTok, st3)) =>
            some (.ok (.oast (some (.Label (tokStr labTok) (astOrNone o))), st3))
        | some (.ok (none, st2)) => some (.ok (.oast o, st2))
      | some (.ok (_, _)) => some (.error "InternalShape")
    | .pSuffix =>
      match parseGo code fuel st .pPrimary with
      | none => none
      | some (.error e) => some (.error e)
      | some (.ok (.oast o, st1)) =>
        match matcht code fuel st1 .QUESTION with
        | none => none
        | some (.error e) => some (.error e)
        | some (.ok (some _, st2)) => some (.ok (.oast (some (.Question (astOrNone o))), st2))
        | some (.ok (none, st2)) =>
          match matcht code fuel st2 .STAR with
          | none => none
          | some (.error e) => some (.error e)
          | some (.ok (some _, st3)) => some (.ok (.oast (some (.Star (astOrNone o))), st3))
          | some (.ok (none, st3)) =>
            match matcht code fuel st3 .PLUS with
            | none => none
            | some (.error e) => some (.error e)
            | some (.ok (some _, st4)) => some (.ok (.oast (some (.Plus (astOrNone o))), st4))
            | some (.ok (none, st4)) => some (.ok (.oast o, st4))
      | some (.ok (_, _)) => some (.error "InternalShape")
    | .pPrimary =>
      if st.token.t = .OPCAP then
        match peekt code fuel st with
        | none => none
        | some (.error e) => some (.error e)
        | some (.ok (tok, st1)) =>
          if tok.t = .IDENTIFIER then
            match consumet code fuel st1 .OPCAP with
            | none => none
            | some (.error e) => some (.error e)
            | some (.ok (_, st2)) =>
              match consumet code fuel st2 .IDENTIFIER with
              | none => none
              | some (.error e) => some (.error e)
              | some (.ok (idTok, st3)) =>
                some (.ok (.oast (some (.CaptureNode (.Identifier (tokStr idTok)))), st3))
          else parseGo code fuel st1 .pPrimaryRest
      else parseGo code fuel st .pPrimaryRest
    | .pListLoop acc =>
      match matcht code fuel st .CLCB with
      | none => none
      | some (.error e) => some (.error e)
      | some (.ok (some _, st1)) => some (.ok (.oast (some (.ListN acc)), st1))
      | some (.ok (none, st1)) =>
        match parseGo code fuel st1 .pExpr with
        | none => none
        | some (.error e) => some (.error e)
        | some (.ok (.oast o, st2)) => parseGo code fuel st2 (.pListLoop (acc ++ [astOrNone o]))
        | some (.ok (_, _)) => some (.error "InternalShape")
    | .pPrimaryRest =>
      -- the `elif` chain of `parsePrimary` after the capture-node test
      if st.token.t = .IDENTIFIER then
      match peekt code fuel st with
      | none => none
      | some (.error e) => some (.error e)
      | some (.ok (tok, st1)) =>
        if tok.t ≠ .ARROW then
          match consumet code fuel st1 .IDENTIFIER with
          | none => none
          | some (.error e) => some (.error e)
          | some (.ok (idTok, st2)) => some (.ok (.oast (some (.Identifier (tokStr idTok))), st2))
        else some (.ok (.oast none, st1))
    else if st.token.t = .LITERAL then
      match consumet code fuel st .LITERAL with
      | none => none
      | some (.error e) => some (.error e)
      | some (.ok (tok, st1)) => some (.ok (.oast (some (.Literal (tokStr tok) false)), st1))
    else if st.token.t = .STRING then
      match consumet code fuel st .STRING with
      | none => none
      | some (.error e) => some (.error e)
      | some (.ok (tok, st1)) => some (.ok (.oast (some (.Str (tokStr tok))), st1))
    else if st.token.t = .CLASS then
      match consumet code fuel st .CLASS with
      | none => none
      | some (.error e) => some (.error e)
      | some (.ok (tok, st1)) => some (.ok (.oast (some (.Class (tokItems tok) false)), st1))
    else if st.token.t = .DOT then
      match matcht code fuel st .DOT with
      | none => none
      | some (.error e) => some (.error e)
      | some (.ok (_, st1)) => some (.ok (.oast (some (.Dot false)), st1))
    else if st.token.t = .OPEN then
      match matcht code fuel st .OPEN with
      | none => none
      | some (.error e) => some (.error e)
      | some (.ok (_, st1)) =>
        match matcht code fuel st1 .CLOSE with
        | none => none
        | some (.error e) => some (.error e)
        | some (.ok (some _, st2)) => some (.ok (.oast (some (.rawList [])), st2))
        | some (.ok (none, st2)) =>
          match parseGo code fuel st2 .pExpr with
          | none => none
          | some (.error e) => some (.error e)
          | some (.ok (.oast o, st3)) =>
            match consumet code fuel st3 .CLOSE with
            | none => none
            | some (.error e) => some (.error e)
            | some (.ok (_, st4)) => some (.ok (.oast o, st4))
          | some (.ok (_, _)) => some (.error "InternalShape")
    else if st.token.t = .OPCB then
      match matcht code fuel st .OPCB with
      | none => none
      | some (.error e) => some (.error e)
      | some (.ok (_, st1)) =>
        match matcht code fuel st1 .CLCB with
        | none => none
        | some (.error e) => some (.error e)
        | some (.ok (some _, st2)) => some (.ok (.oast (some (.rawList [])), st2))
        | some (.ok (none, st2)) =>
          match parseGo code fuel st2 .pExpr with
          | none => none
          | some (.error e) => some (.error e)
          | some (.ok (.oast o, st3)) =>
            match consumet code fuel st3 .CLCB with
            | none => none
            | some (.error e) => some (.error e)
            | some (.ok (_, st4)) =>
              some (.ok (.oast (some (.CaptureBlock (astOrNone o))), st4))
          | some (.ok (_, _)) => some (.error "InternalShape")
    else if st.token.t = .OPLS then
      match matcht code fuel st .OPLS with
      | none => none
      | some (.error e) => some (.error e)
      | some (.ok (_, st1)) =>
        match matcht code fuel st1 .CLCB with
        | none => none
        | some (.error e) => some (.error e)
        | some (.ok (some _, st2)) => some (.ok (.oast (some (.ListN [])), st2))
        | some (.ok (none, st2)) => parseGo code fuel st2 (.pListLoop [])
    else some (.ok (.oast none, st))

/-- `Parser.parse`: `self.nextt(); return self.parseDefinitions()`.  The
constructor leaves `self.token` unset; the placeholder below is never
read because `nextt` runs first. -/
def parseSrc (fuel : Nat) (src : String) : Option (Except String (List PDef)) :=
  let code := src.toList
  match nextt code fuel ⟨0, 0, 0, ⟨.END, .none, 0, 0⟩⟩ with
  | none => none
  | some (.error e) => some (.error e)
  | some (.ok st) =>
    match parseGo code fuel st (.pDefs []) with
    | none => none
    | some (.error e) => some (.error e)
    | some (.ok (.defsOut l, _)) => some (.ok l)
    | some (.ok (_, _)) => some (.error "InternalShape")

/-- Python values produced by the direct matcher: a string (single
characters are one-character strings, `Match.ret` slices are strings) or
a list whose elements may be `None` (`matchStar` appends each
sub-value, `None` included).  An `Option PyVal` is the general value
slot, `none` standing for Python `None`. -/
inductive PyVal where
  | str (s : List Char)
  | list (l : List (Option PyVal))
deriving Repr

/-- Python truthiness of a matcher value: `None` and empty
strings/lists are falsy. -/
def truthy : Option PyVal → Bool
  | none => false
  | some (.str s) => !s.isEmpty
  | some (.list l) => !l.isEmpty

/-- `fio` at the type used by the matcher: a freshly built Python list
of values collapses to its sole element (which may be `None`), anything
else stays a list. -/
def fioV (l : List (Option PyVal)) : Option PyVal :=
  match l with
  | [x] => x
  | _ => some (.list l)

/-- Mutable state of class `Match`: the subject `data` and the cursor
`pos` (the grammar dictionary is passed separately). -/
structure MState where
  data : List Char
  pos : Nat
deriving Repr

/-- `Match.current`: character at the cursor or `None` at the end. -/
def mcurrent (st : MState) : Option Char := st.data.get? st.pos

/-- `Match.advance`: move the cursor `n` forward unless that would pass
one past the end (`if self.pos+n >= len(self.data)+1: return None`). -/
def madvance (st : MState) (n : Nat) : MState :=
  if st.pos + n ≥ st.data.length + 1 then st else { st with pos := st.pos + n }

/-- `Match.ret`: the slice `data[mark:pos]`, with Python's `or None`
turning an empty slice into `None`. -/
def mret (st : MState) (mark : Nat) : Option PyVal :=
  let s := (st.data.drop mark).take (st.pos - mark)
  if s.isEmpty then none else some (.str s)

/-- `Match.matchLiteral`, verbatim: walk the characters of the literal,
advancing once whenever the current input character equals the literal
character under inspection (a mismatch advances nothing and moves to
the next literal character), then report success iff the consumed slice
is non-empty.  There is no length check against the literal. -/
def matchLiteral (s : String) (st : MState) : Bool × Option PyVal × MState :=
  let d := st.pos
  let st' := s.toList.foldl
    (fun acc c => if mcurrent acc = some c then madvance acc 1 else acc) st
  let output := mret st' d
  (output.isSome, output, st')

/-- Test of one class entry against the current character, as
`Match.matchClass` performs it: range entries use `lo <= c <= hi`,
character entries use equality.  A `None` field never matches (for a
bare `None` entry Python's `== None` is `False`; a `None` range bound
would raise in the source and is unreachable). -/
def itemMatches (cur : Char) : ClassItem → Bool
  | .range (some lo) (some hi) => lo ≤ cur && cur ≤ hi
  | .range _ _ => false
  | .single (some c) => cur = c
  | .single _ => false

/-- The entry loop of `Match.matchClass`: first matching entry wins,
consuming one character; no entry matching fails without moving. -/
def matchClassLoop (cur : Char) (st : MState) : List ClassItem → Bool × Option PyVal × MState
  | [] => (false, none, st)
  | it :: rest =>
    if itemMatches cur it then (true, some (.str [cur]), madvance st 1)
    else matchClassLoop cur st rest

/-- `Match.matchClass`: fail at end of input, otherwise try the entries
left to right. -/
def matchClass (items : List ClassItem) (st : MState) : Bool × Option PyVal × MState :=
  match mcurrent st with
  | none => (false, none, st)
  | some cur => matchClassLoop cur st items

/-- `Match.matchDot`: advance one (a no-op at the end) and return the
consumed slice, failing when it is empty. -/
def matchDot (st : MState) : Bool × Option PyVal × MState :=
  let d := st.pos
  let st' := madvance st 1
  let output := mret st' d
  (output.isSome, output, st')

/-- The grammar dictionary of `grammarAsDict` (plain dict built left to
right, so a later binding of the same name overrides an earlier one):
lookup returns the value of the last matching binding. -/
def gdict (g : List (String × AST)) (k : String) : Option AST :=
  (g.reverse.find? (fun p => p.1 = k)).map (fun p => p.2)

/-- Work items of the matcher recursion: a node to match, the in-order
body loop of `matchSequence` (carrying the entry cursor and collected
truthy values), the alternative loop of `matchExpression` and the
repetition loop of `matchStar`. -/
inductive MTask where
  | atom (a : AST)
  | seqGo (d : Nat) (acc : List (Option PyVal)) (rest : List AST)
  | exprGo (rest : List AST)
  | starGo (a : AST) (acc : List (Option PyVal))

/-- Matcher results: the `(matched, value)` pair of every `match*`
method, or the raw list a `matchStar` loop produced. -/
inductive MOut where
  | bv (b : Bool) (v : Option PyVal)
  | lst (l : List (Option PyVal))
deriving Repr

/-- `Match.matchAtom` and the looping methods of class `Match`, as one
fueled recursion.  Raised exceptions are `.error`: `"Unexpected atom"`
for node kinds `matchAtom` has no branch for (notably `And`, for which
the dispatch has no case, as well as `String`, captures, labels and
lists), and `"KeyError"` for an identifier missing from the grammar
dictionary. -/
def matchGo (g : List (String × AST)) : Nat → MState → MTask → Option (Except String (MOut × MState))
  | 0, _, _ => none
  | fuel + 1, st, task =>
    match task with
    | .atom a =>
      match a with
      | .Class items _ => some (.ok (let r := matchClass items st; (.bv r.1 r.2.1, r.2.2)))
      | .Literal s _ => some (.ok (let r := matchLiteral s st; (.bv r.1 r.2.1, r.2.2)))
      | .Dot _ => some (.ok (let r := matchDot st; (.bv r.1 r.2.1, r.2.2)))
      | .Identifier n =>
        match gdict g n with
        | none => some (.error "KeyError")
        | some e => matchGo g fuel st (.atom e)
      | .Plus x =>
        match matchGo g fuel st (.atom x) with
        | none => none
        | some (.error e) => some (.error e)
        | some (.ok (.bv b v, st1)) =>
          if b then
            match matchGo g fuel st1 (.starGo x []) with
            | none => none
            | some (.error e) => some (.error e)
            | some (.ok (.lst l, st2)) => some (.ok (.bv true (fioV (v :: l)), st2))
            | some (.ok (_, _)) => some (.error "InternalShape")
          else some (.ok (.bv false none, st1))
        | some (.ok (_, _)) => some (.error "InternalShape")
      | .Question x =>
        match matchGo g fuel st (.atom x) with
        | none => none
        | some (.error e) => some (.error e)
        | some (.ok (.bv _ v, st1)) => some (.ok (.bv true v, st1))
        | some (.ok (_, _)) => some (.error "InternalShape")
      | .Star x =>
        match matchGo g fuel st (.starGo x []) with
        | none => none
        | some (.error e) => some (.error e)
        | some (.ok (.lst l, st1)) => some (.ok (.bv true (some (.list l)), st1))
        | some (.ok (_, _)) => some (.error "InternalShape")
      | .Not x =>
        let d := st.pos
        match matchGo g fuel st (.atom x) with
        | none => none
        | some (.error e) => some (.error e)
        | some (.ok (.bv b _, st1)) =>
          if b then some (.ok (.bv false none, { st1 with pos := d }))
          else some (.ok (.bv true none, st1))
        | some (.ok (_, _)) => some (.error "InternalShape")
      | .Sequence l => matchGo g fuel st (.seqGo st.pos [] l)
      | .Expression alts => matchGo g fuel st (.exprGo alts)
      | _ => some (.error "Unexpected atom")
    | .seqGo d acc rest =>
      match rest with
      | [] => some (.ok (.bv true (fioV acc), st))
      | sa :: rest' =>
        match matchGo g fuel st (.atom sa) with
        | none => none
        | some (.error e) => some (.error e)
        | some (.ok (.bv b v, st1)) =>
          if b && truthy v then matchGo g fuel st1 (.seqGo d (acc ++ [v]) rest')
          else if b then matchGo g fuel st1 (.seqGo d acc rest')
          else some (.ok (.bv false none, { st1 with pos := d }))
        | some (.ok (_, _)) => some (.error "InternalShape")
    | .exprGo rest =>
      match rest with
      | [] => some (.ok (.bv false none, st))
      | sa :: rest' =>
        match matchGo g fuel st (.atom sa) with
        | none => none
        | some (.error e) => some (.error e)
        | some (.ok (.bv b v, st1)) =>
          if b then some (.ok (.bv true v, st1))
          else matchGo g fuel st1 (.exprGo rest')
        | some (.ok (_, _)) => some (.error "InternalShape")
    | .starGo x acc =>
      match matchGo g fuel st (.atom x) with
      | none => none
      | some (.error e) => some (.error e)
      | some (.ok (.bv b v, st1)) =>
        if b then matchGo g fuel st1 (.starGo x (acc ++ [v]))
        else some (.ok (.lst acc, st1))
      | some (.ok (_, _)) => some (.error "InternalShape")

/-- Grammar as the dictionary `Match.__init__` builds. -/
def grammarAsDict (g : List PDef) : List (String × AST) :=
  g.map (fun d => (d.name, d.expr))

/-- `Match(grammar, start, data).run()`: look the start rule up in the
dictionary (`KeyError` when absent) and match its body at cursor 0. -/
def matchRun (fuel : Nat) (g : List PDef) (start : String) (data : String) :
    Option (Except String (MOut × MState)) :=
  let d := grammarAsDict g
  match gdict d start with
  | none => some (.error "KeyError")
  | some e => matchGo d fuel ⟨data.toList, 0⟩ (.atom e)

/-- Parse a grammar source and run the direct matcher on it. -/
def matchSrc (fuel : Nat) (src start data : String) : Option (Except String (MOut × MState)) :=
  match parseSrc fuel src with
  | none => none
  | some (.error e) => some (.error e)
  | some (.ok defs) => matchRun fuel defs start data

/-! ## Bytecode compiler -/

/-- Opcode ordinals of the `Instructions` enum. -/
def OP_HALT : Nat := 0
/-- `OP_CHAR` ordinal. -/
def OP_CHAR : Nat := 1
/-- `OP_ANY` ordinal. -/
def OP_ANY : Nat := 2
/-- `OP_CHOICE` ordinal. -/
def OP_CHOICE : Nat := 3
/-- `OP_COMMIT` ordinal. -/
def OP_COMMIT : Nat := 4
/-- `OP_FAIL` ordinal. -/
def OP_FAIL : Nat := 5
/-- `OP_FAIL_TWICE` ordinal. -/
def OP_FAIL_TWICE : Nat := 6
/-- `OP_PARTIAL_COMMIT` ordinal. -/
def OP_PARTIAL_COMMIT : Nat := 7
/-- `OP_BACK_COMMIT` ordinal. -/
def OP_BACK_COMMIT : Nat := 8
/-- `OP_TEST_CHAR` ordinal. -/
def OP_TEST_CHAR : Nat := 9
/-- `OP_TEST_ANY` ordinal. -/
def OP_TEST_ANY : Nat := 10
/-- `OP_JUMP` ordinal. -/
def OP_JUMP : Nat := 11
/-- `OP_CALL` ordinal. -/
def OP_CALL : Nat := 12
/-- `OP_RETURN` ordinal. -/
def OP_RETURN : Nat := 13
/-- `OP_SPAN` ordinal. -/
def OP_SPAN : Nat := 14
/-- `OP_SET` ordinal. -/
def OP_SET : Nat := 15
/-- `OP_THROW` ordinal. -/
def OP_THROW : Nat := 16
/-- `OP_CAP_OPEN` ordinal. -/
def OP_CAP_OPEN : Nat := 17
/-- `OP_CAP_CLOSE` ordinal. -/
def OP_CAP_CLOSE : Nat := 18
/-- `OP_ATOM` ordinal. -/
def OP_ATOM : Nat := 19
/-- `OP_OPEN` ordinal. -/
def OP_OPEN : Nat := 20
/-- `OP_CLOSE` ordinal. -/
def OP_CLOSE : Nat := 21
/-- `OP_CAPCHAR` ordinal. -/
def OP_CAPCHAR : Nat := 22
/-- `OP_END` ordinal. -/
def OP_END : Nat := 23

/-- `OPERATOR_OFFSET` of the source: 32-bit instruction, 5-bit opcode. -/
def OPERATOR_OFFSET : Nat := 27

/-- `gen(name)` with no arguments: opcode padded with zeros. -/
def gen0 (op : Nat) : Nat := op <<< OPERATOR_OFFSET

/-- `gen(name, arg0)`: single 27-bit operand, masked exactly like the
source's `arg0 & 0x07ffffff` (which is two's-complement truncation for
negative offsets). -/
def gen1 (op : Nat) (arg0 : Int) : Nat :=
  (arg0.emod (2 ^ 27)).toNat ||| (op <<< OPERATOR_OFFSET)

/-- `gen(name, arg0, arg1)`: two operands, `arg1 | (arg0 << 16)`, no
masking in the source. -/
def gen2 (op : Nat) (arg0 arg1 : Nat) : Nat :=
  (arg1 ||| (arg0 <<< 16)) ||| (op <<< OPERATOR_OFFSET)

/-- Mutable state of class `Compiler` during code generation: the
instruction words, the pending callsites (the source keys a dict of
position lists by rule name; a flat list of pairs carries the same
pairs, each patched independently), the ambient capture flag and the
string table.  The source's `self.pos` always equals `len(self.code)`
(`emit` appends and increments together, patches replace in place), so
the embedding reads `code.length` where the source reads `self.pos`. -/
structure CState where
  code : List Nat
  callsites : List (String × Nat)
  capture : Bool
  strings : List String
deriving DecidableEq, Repr

/-- `Compiler.emit`: append one instruction word. -/
def emit (st : CState) (i : Nat) : CState := { st with code := st.code ++ [i] }

/-- `Compiler._str`: append the string on first use, then return its
(first) index. -/
def strOf (st : CState) (s : String) : CState × Nat :=
  let strings := if s ∈ st.strings then st.strings else st.strings ++ [s]
  ({ st with strings := strings }, strings.indexOf s)

/-- `Compiler.compileThrow`: `emit('throw', self._str(label) + 2)`. -/
def compileThrowSt (st : CState) (name : String) : CState :=
  let p := strOf st name
  emit p.1 (gen1 OP_THROW (Int.ofNat (p.2 + 2)))

/-- `Compiler.compileLiteral`: one `CHAR` per character, each followed
by `CAPCHAR` when the ambient capture flag or the node's mark is set. -/
def compileLiteralSt (st : CState) (s : String) (cap : Bool) : CState :=
  s.toList.foldl
    (fun acc c =>
      let acc1 := emit acc (gen1 OP_CHAR (Int.ofNat c.toNat))
      if acc1.capture || cap then emit acc1 (gen0 OP_CAPCHAR) else acc1)
    st

/-- `Compiler.compileAny`: `ANY`, optionally `CAPCHAR`. -/
def compileAnySt (st : CState) (cap : Bool) : CState :=
  let st1 := emit st (gen0 OP_ANY)
  if st1.capture || cap then emit st1 (gen0 OP_CAPCHAR) else st1

/-- `Compiler.compileRange`: `SPAN lo hi`, optionally `CAPCHAR`.  A
`None` bound would raise `ord(None)` in the source; no terminating lex
produces one, and the embedding leaves the state unchanged there. -/
def compileRangeSt (st : CState) (cap : Bool) (lo hi : Option Char) : CState :=
  match lo, hi with
  | some l, some h =>
    let st1 := emit st (gen2 OP_SPAN l.toNat h.toNat)
    if st1.capture || cap then emit st1 (gen0 OP_CAPCHAR) else st1
  | _, _ => st

/-- `Compiler.compileRangeOrLiteral`: a range entry compiles via
`compileRange`, a character entry becomes a one-character `Literal`
carrying the class's capture mark. -/
def compileRangeOrLiteral (st : CState) (cap : Bool) : ClassItem → CState
  | .range lo hi => compileRangeSt st cap lo hi
  | .single (some c) => compileLiteralSt st (String.mk [c]) cap
  | .single none => st

/-- `Compiler._compileChoices` specialised to class entries (the
`compileClass` call with the partially applied
`compileRangeOrLiteral`): every alternative but the last gets a
`CHOICE`/`COMMIT` frame; the choice offset is patched right after its
body, every commit is patched to point one past the last alternative. -/
def compChoicesC (st : CState) (cap : Bool) : List ClassItem → CState
  | [] => st
  | [c] => compileRangeOrLiteral st cap c
  | c :: c2 :: rest =>
    let pos := st.code.length
    let st1 := emit st (gen0 OP_CHOICE)
    let st2 := compileRangeOrLiteral st1 cap c
    let size := st2.code.length - st1.code.length
    let st3 := { st2 with code := st2.code.set pos (gen1 OP_CHOICE (Int.ofNat (size + 2))) }
    let cpos := st3.code.length
    let st4 := emit st3 (gen0 OP_COMMIT)
    let st5 := compChoicesC st4 cap (c2 :: rest)
    { st5 with code := st5.code.set cpos (gen1 OP_COMMIT (Int.ofNat (st5.code.length - cpos))) }

mutual

/-- `Compiler.compileAtom`: dispatch over the node variants.  `none`
models a raised exception (`Unknown atom` for `pyNone`/`rawList`, the
failed `assert` of `compileCaptureNode`); the delegations
`compileAnd → compileNot` and `compilePlus → compileStar` are inlined
on the child node, exactly as the source runs them. -/
def compileAtom (st : CState) : AST → Option CState
  | .Literal s cap => some (compileLiteralSt st s cap)
  | .Str s =>
    let p := strOf st s
    some (emit p.1 (gen1 OP_ATOM (Int.ofNat p.2)))
  | .Dot cap => some (compileAnySt st cap)
  | .Not a =>
    -- compileNot: choice placeholder, body with capture disabled,
    -- patch choice to size+3, then commit 1 / fail
    let pos := st.code.length
    let st1 := emit st (gen0 OP_CHOICE)
    let bak := st1.capture
    match compileAtom { st1 with capture := false } a with
    | none => none
    | some st2 =>
      let size := st2.code.length - st1.code.length
      let st3 := { st2 with capture := bak }
      let st4 := { st3 with code := st3.code.set pos (gen1 OP_CHOICE (Int.ofNat (size + 3))) }
      some (emit (emit st4 (gen1 OP_COMMIT 1)) (gen0 OP_FAIL))
  | .And a =>
    -- compileAnd: pos = emit(choice); compileNot(atom); patch
    -- code[pos-1] to size+3; commit 1 / fail
    let aPos := st.code.length + 1
    let stA := emit st (gen0 OP_CHOICE)
    let pos := stA.code.length
    let st1 := emit stA (gen0 OP_CHOICE)
    let bak := st1.capture
    match compileAtom { st1 with capture := false } a with
    | none => none
    | some st2 =>
      let size := st2.code.length - st1.code.length
      let st3 := { st2 with capture := bak }
      let st4 := { st3 with code := st3.code.set pos (gen1 OP_CHOICE (Int.ofNat (size + 3))) }
      let st5 := emit (emit st4 (gen1 OP_COMMIT 1)) (gen0 OP_FAIL)
      let sizeA := st5.code.length - aPos
      let st6 := { st5 with code := st5.code.set (aPos - 1) (gen1 OP_CHOICE (Int.ofNat (sizeA + 3))) }
      some (emit (emit st6 (gen1 OP_COMMIT 1)) (gen0 OP_FAIL))
  | .Star a =>
    let pos := st.code.length
    let st1 := emit st (gen0 OP_CHOICE)
    match compileAtom st1 a with
    | none => none
    | some st2 =>
      let size := st2.code.length - st1.code.length
      let st3 := { st2 with code := st2.code.set pos (gen1 OP_CHOICE (Int.ofNat (size + 2))) }
      some (emit st3 (gen1 OP_COMMIT (-(Int.ofNat (size + 1)))))
  | .Plus a =>
    -- compilePlus: cc(atom.value) then compileStar(atom)
    match compileAtom st a with
    | none => none
    | some stP =>
      let pos := stP.code.length
      let st1 := emit stP (gen0 OP_CHOICE)
      match compileAtom st1 a with
      | none => none
      | some st2 =>
        let size := st2.code.length - st1.code.length
        let st3 := { st2 with code := st2.code.set pos (gen1 OP_CHOICE (Int.ofNat (size + 2))) }
        some (emit st3 (gen1 OP_COMMIT (-(Int.ofNat (size + 1)))))
  | .Question a =>
    let pos := st.code.length
    let st1 := emit st (gen0 OP_CHOICE)
    match compileAtom st1 a with
    | none => none
    | some st2 =>
      let size := st2.code.length - st1.code.length
      let st3 := { st2 with code := st2.code.set pos (gen1 OP_CHOICE (Int.ofNat (size + 2))) }
      some (emit st3 (gen1 OP_COMMIT 1))
  | .Class items cap =>
    match items with
    | [c] => some (compileRangeOrLiteral st cap c)
    | _ => some (compChoicesC st cap items)
  | .Identifier n =>
    -- placeholder CALL recorded for patching
    let pos := st.code.length
    let st1 := emit st (gen0 OP_CALL)
    some { st1 with callsites := st1.callsites ++ [(n, pos)] }
  | .Sequence l => compileSeqL st l
  | .Expression alts => compChoicesE st alts
  | .Label name sub =>
    -- compileLabel: _compileChoices([sub, Throw(name)], cc), unrolled:
    -- the non-last alternative is sub, the bare last one the throw
    let pos := st.code.length
    let st1 := emit st (gen0 OP_CHOICE)
    match compileAtom st1 sub with
    | none => none
    | some st2 =>
      let size := st2.code.length - st1.code.length
      let st3 := { st2 with code := st2.code.set pos (gen1 OP_CHOICE (Int.ofNat (size + 2))) }
      let cpos := st3.code.length
      let st4 := emit st3 (gen0 OP_COMMIT)
      let st5 := compileThrowSt st4 name
      some { st5 with code := st5.code.set cpos (gen1 OP_COMMIT (Int.ofNat (st5.code.length - cpos))) }
  | .Throw name => some (compileThrowSt st name)
  | .CaptureBlock a =>
    -- the Capture context manager sets the flag and emits CAP_OPEN on
    -- entry, restores the backup and emits CAP_CLOSE on exit (capId is
    -- False, so the sid operand is 0)
    let bak := st.capture
    let st1 := emit { st with capture := true } (gen2 OP_CAP_OPEN 1 0)
    match compileAtom st1 a with
    | none => none
    | some st2 => some (emit { st2 with capture := bak } (gen2 OP_CAP_CLOSE 1 0))
  | .CaptureNode a =>
    match a with
    | .Identifier n =>
      -- compileCaptureNode: intern the name, then the Capture context
      -- manager (isTerminal 0, capId = the name, so each cap
      -- instruction interns again), with compileIdentifier inlined
      let p0 := strOf st n
      let bak := p0.1.capture
      let pA := strOf { p0.1 with capture := true } n
      let st1 := emit pA.1 (gen2 OP_CAP_OPEN 0 pA.2)
      let pos := st1.code.length
      let st2 := emit st1 (gen0 OP_CALL)
      let st2b := { st2 with callsites := st2.callsites ++ [(n, pos)] }
      let pB := strOf { st2b with capture := bak } n
      some (emit pB.1 (gen2 OP_CAP_CLOSE 0 pB.2))
    | _ => none
  | .ListN l =>
    match compileSeqL (emit st (gen0 OP_OPEN)) l with
    | none => none
    | some st2 => some (emit st2 (gen0 OP_CLOSE))
  | .pyNone => none
  | .rawList _ => none

/-- `Compiler.compileSequence` (and the body loop of `compileList`):
compile the members in order, no scaffolding. -/
def compileSeqL (st : CState) : List AST → Option CState
  | [] => some st
  | a :: rest =>
    match compileAtom st a with
    | none => none
    | some st1 => compileSeqL st1 rest

/-- `Compiler._compileChoices` with `compFunc = cc` (used by
`compileExpression`): same scaffold as `compChoicesC`. -/
def compChoicesE (st : CState) : List AST → Option CState
  | [] => some st
  | [c] => compileAtom st c
  | c :: c2 :: rest =>
    let pos := st.code.length
    let st1 := emit st (gen0 OP_CHOICE)
    match compileAtom st1 c with
    | none => none
    | some st2 =>
      let size := st2.code.length - st1.code.length
      let st3 := { st2 with code := st2.code.set pos (gen1 OP_CHOICE (Int.ofNat (size + 2))) }
      let cpos := st3.code.length
      let st4 := emit st3 (gen0 OP_COMMIT)
      match compChoicesE st4 (c2 :: rest) with
      | none => none
      | some st5 =>
        some { st5 with code := st5.code.set cpos (gen1 OP_COMMIT (Int.ofNat (st5.code.length - cpos))) }

end

mutual

/-- `walker(node, Not, (CaptureBlock, CaptureNode))` non-emptiness, as
`Compiler.__init__` computes `hasCaptureOps`: capture operators count
only outside `Not` subtrees. -/
def hasCapOps : AST → Bool
  | .Not _ => false
  | .CaptureBlock _ => true
  | .CaptureNode _ => true
  | .And a => hasCapOps a
  | .Question a => hasCapOps a
  | .Star a => hasCapOps a
  | .Plus a => hasCapOps a
  | .Label _ a => hasCapOps a
  | .Expression l => hasCapOpsL l
  | .Sequence l => hasCapOpsL l
  | .ListN l => hasCapOpsL l
  | .rawList l => hasCapOpsL l
  | _ => false

/-- `hasCapOps` over a child list. -/
def hasCapOpsL : List AST → Bool
  | [] => false
  | a :: r => hasCapOps a || hasCapOpsL r

end

/-- The per-definition loop of `Compiler.genCode`: record the address,
compile the rule body, emit `RETURN`, accumulate the size.  Addresses
are recorded in assignment order; a later definition of the same name
overwrites the earlier dict entry, which the list models by appending
(lookup takes the last binding). -/
def genDefs (st : CState) (addrs : List (String × Nat)) (size : Nat) :
    List PDef → Option (CState × List (String × Nat) × Nat)
  | [] => some (st, addrs, size)
  | d :: rest =>
    let addr := st.code.length
    match compileAtom st d.expr with
    | none => none
    | some st1 =>
      let st2 := emit st1 (gen0 OP_RETURN)
      genDefs st2 (addrs ++ [(d.name, addr)]) (size + (st2.code.length - addr)) rest

/-- Last-binding lookup in the address dict of `genCode`. -/
def dlookupN (l : List (String × Nat)) (k : String) : Option Nat :=
  (l.reverse.find? (fun p => p.1 = k)).map (fun p => p.2)

/-- The call-patching loop at the end of `genCode`: each recorded
callsite is rewritten to `CALL (address - callsite)`; an identifier
with no definition raises `KeyError` (modelled as `none`). -/
def patchCalls (code : List Nat) (addrs : List (String × Nat)) :
    List (String × Nat) → Option (List Nat)
  | [] => some code
  | (n, cs) :: rest =>
    match dlookupN addrs n with
    | none => none
    | some a =>
      patchCalls (code.set cs (gen1 OP_CALL ((a : Int) - (cs : Int)))) addrs rest

/-- `Compiler.__init__` line `self.capture = False`: the constructor
receives a `capture` argument but never reads it; the initial ambient
flag is the literal `False`. -/
def mkCompilerCapture (_captureArg : Bool) : Bool := false

/-- `Compiler.genCode`: the `CALL +2; JUMP ...` prologue, the optional
capture wrapper around the rule bodies when the grammar holds capture
operators outside `Not`, the definition loop, the jump patch over the
accumulated body size, `HALT`, and the callsite patching.  The result
is the instruction-word list `self.code` together with the string
table (the source then packs the words big-endian; `assembleBytes`
below performs the packing).  An empty grammar is `none`: the
constructor's `grammar.value[0]` would already have raised. -/
def genCode (capInit : Bool) (g : List PDef) : Option (List Nat × List String) :=
  match g with
  | [] => none
  | d0 :: _ =>
    let start := d0.name
    let st0 : CState := ⟨[], [], capInit, []⟩
    let st1 := emit st0 (gen1 OP_CALL 2)
    let jumpPos := st1.code.length + 1
    let st2 := emit st1 (gen0 OP_JUMP)
    let hasCaps := hasCapOpsL (g.map (fun d => d.expr))
    let distance := if hasCaps then 3 else 2
    let st3 :=
      if hasCaps then
        let p := strOf st2 start
        emit p.1 (gen2 OP_CAP_OPEN 0 p.2)
      else st2
    match genDefs st3 [] 0 g with
    | none => none
    | some (st4, addrs, size) =>
      let st5 :=
        if hasCaps then
          let p := strOf st4 start
          emit p.1 (gen2 OP_CAP_CLOSE 0 p.2)
        else st4
      let st6 := { st5 with code := st5.code.set (jumpPos - 1) (gen1 OP_JUMP (Int.ofNat (size + distance))) }
      let st7 := emit st6 (gen0 OP_HALT)
      match patchCalls st7.code addrs st7.callsites with
      | none => none
      | some code => some (code, st7.strings)

/-! ## Capture analyzer (markCaptures)

The source's `walker` collects structurally-distinct nodes in a
stack-DFS order and `markTerminals` then mutates the collected objects
in place.  Because the parser creates one fresh object per tree
position, the mutation is positional; the collectors below gather the
same node sets and the transforms mark the corresponding positions.
(When two structurally equal terminals both lie in marking scope the
source's dedup marks only the first object the walk encounters while
the model marks both positions; both then compile identically because
the marking scopes set the ambient capture flag anyway, and every
result consumed from the walker lists here is a membership test, which
dedup and order do not affect.) -/

mutual

/-- `walker(node, Not, CaptureBlock)`: the capture-block nodes outside
`Not` subtrees; the walk does not descend into a gathered block. -/
def collectBlocks : AST → List AST
  | .Not _ => []
  | .CaptureBlock a => [.CaptureBlock a]
  | .And a => collectBlocks a
  | .Question a => collectBlocks a
  | .Star a => collectBlocks a
  | .Plus a => collectBlocks a
  | .Label _ a => collectBlocks a
  | .CaptureNode a => collectBlocks a
  | .Expression l => collectBlocksL l
  | .Sequence l => collectBlocksL l
  | .ListN l => collectBlocksL l
  | .rawList l => collectBlocksL l
  | _ => []

/-- `collectBlocks` over a child list. -/
def collectBlocksL : List AST → List AST
  | [] => []
  | a :: r => collectBlocks a ++ collectBlocksL r

end

mutual

/-- `walker(node, Not, Identifier)`: names of identifiers outside `Not`
subtrees (descending into capture blocks). -/
def identsN : AST → List String
  | .Not _ => []
  | .Identifier n => [n]
  | .And a => identsN a
  | .Question a => identsN a
  | .Star a => identsN a
  | .Plus a => identsN a
  | .Label _ a => identsN a
  | .CaptureBlock a => identsN a
  | .CaptureNode a => identsN a
  | .Expression l => identsNL l
  | .Sequence l => identsNL l
  | .ListN l => identsNL l
  | .rawList l => identsNL l
  | _ => []

/-- `identsN` over a child list. -/
def identsNL : List AST → List String
  | [] => []
  | a :: r => identsN a ++ identsNL r

end

mutual

/-- `walker(g, (Not, CaptureBlock), Identifier)`: names of identifiers
outside `Not` and outside capture blocks (the initial skip set). -/
def identsNB : AST → List String
  | .Not _ => []
  | .CaptureBlock _ => []
  | .Identifier n => [n]
  | .And a => identsNB a
  | .Question a => identsNB a
  | .Star a => identsNB a
  | .Plus a => identsNB a
  | .Label _ a => identsNB a
  | .CaptureNode a => identsNB a
  | .Expression l => identsNBL l
  | .Sequence l => identsNBL l
  | .ListN l => identsNBL l
  | .rawList l => identsNBL l
  | _ => []

/-- `identsNB` over a child list. -/
def identsNBL : List AST → List String
  | [] => []
  | a :: r => identsNB a ++ identsNBL r

end

mutual

/-- `markTerminals`: set the `capture` attribute on every terminal
(`Literal`, `String`, `Dot`, `Class`) not under a `Not`.  The flag on
`String` nodes is set but never read by the compiler, and the `Str`
variant here carries none. -/
def markTermsIn : AST → AST
  | .Not a => .Not a
  | .Literal s _ => .Literal s true
  | .Class items _ => .Class items true
  | .Dot _ => .Dot true
  | .And a => .And (markTermsIn a)
  | .Question a => .Question (markTermsIn a)
  | .Star a => .Star (markTermsIn a)
  | .Plus a => .Plus (markTermsIn a)
  | .Label n a => .Label n (markTermsIn a)
  | .CaptureBlock a => .CaptureBlock (markTermsIn a)
  | .CaptureNode a => .CaptureNode (markTermsIn a)
  | .Expression l => .Expression (markTermsInL l)
  | .Sequence l => .Sequence (markTermsInL l)
  | .ListN l => .ListN (markTermsInL l)
  | .rawList l => .rawList (markTermsInL l)
  | a => a

/-- `markTermsIn` over a child list. -/
def markTermsInL : List AST → List AST
  | [] => []
  | a :: r => markTermsIn a :: markTermsInL r

end

mutual

/-- The `markTerminals(block)` pass applied in place to every capture
block outside `Not`: at each such block, mark its terminals. -/
def markBlocksIn : AST → AST
  | .Not a => .Not a
  | .CaptureBlock a => .CaptureBlock (markTermsIn a)
  | .And a => .And (markBlocksIn a)
  | .Question a => .Question (markBlocksIn a)
  | .Star a => .Star (markBlocksIn a)
  | .Plus a => .Plus (markBlocksIn a)
  | .Label n a => .Label n (markBlocksIn a)
  | .CaptureNode a => .CaptureNode (markBlocksIn a)
  | .Expression l => .Expression (markBlocksInL l)
  | .Sequence l => .Sequence (markBlocksInL l)
  | .ListN l => .ListN (markBlocksInL l)
  | .rawList l => .rawList (markBlocksInL l)
  | a => a

/-- `markBlocksIn` over a child list. -/
def markBlocksInL : List AST → List AST
  | [] => []
  | a :: r => markBlocksIn a :: markBlocksInL r

end

/-- The recursion of `followIdentifiers` as a worklist: for every
identifier (outside `Not`) of a work node, its definition receives
`markTerminals` (collected in `marked`); definitions of identifiers not
in `skip` are followed in turn.  The source recursion carries no
visited set, so cyclic capture references recurse forever
(`RecursionError`); the fuel mirrors that, and a `KeyError` on a
missing definition is conflated into `none` as well. -/
def followWork (d : List (String × AST)) (skip : List String) :
    Nat → List AST → List String → Option (List String)
  | 0, _, _ => none
  | _ + 1, [], marked => some marked
  | fuel + 1, node :: work, marked =>
    let ids := identsN node
    if ids.all (fun n => (gdict d n).isSome) then
      let newWork := (ids.filter (fun n => ¬ n ∈ skip)).filterMap (fun n => gdict d n)
      followWork d skip fuel (newWork ++ work) (marked ++ ids)
    else none

/-- `markCaptures`: collect the blocks and the skip set, run
`followIdentifiers` from every block, and mark (a) the terminals of
every block in place and (b) the terminals of every definition some
walk reached. -/
def markCapturesModel (fuel : Nat) (g : List PDef) : Option (List PDef) :=
  let d := grammarAsDict g
  let blocks := (g.map (fun p => collectBlocks p.expr)).flatten
  let skip0 := (g.map (fun p => identsNB p.expr)).flatten
  let blockIds := blocks.flatMap identsN
  let skip := skip0.filter (fun n => ¬ n ∈ blockIds)
  match followWork d skip fuel blocks [] with
  | none => none
  | some marked =>
    some (g.map (fun p =>
      let e1 := markBlocksIn p.expr
      if p.name ∈ marked then ⟨p.name, markTermsIn e1⟩ else ⟨p.name, e1⟩))

/-- Parse a grammar source, run the capture analyzer and generate code
as `Compiler(grammar, capture=...)` followed by `genCode()` would (the
constructor argument reaches `mkCompilerCapture`, which drops it just
as `self.capture = False` does).  Raised errors and exhausted fuel are
both `none`. -/
def compileSrcArg (fuel : Nat) (src : String) (captureArg : Bool) :
    Option (List Nat × List String) :=
  match parseSrc fuel src with
  | none => none
  | some (.error _) => none
  | some (.ok defs) =>
    match markCapturesModel fuel defs with
    | none => none
    | some defs2 => genCode (mkCompilerCapture captureArg) defs2

/-- `compileSrcArg` with the default constructor argument. -/
def compileSrc (fuel : Nat) (src : String) : Option (List Nat × List String) :=
  compileSrcArg fuel src false

/-! ## Assembler / serializer -/

/-- `struct.pack` of an unsigned big-endian 16-bit value (raises when
out of range). -/
def pack16 (n : Nat) : Option (List Nat) :=
  if n < 65536 then some [n / 256, n % 256] else none

/-- `struct.pack` of an unsigned 8-bit value. -/
def pack8 (n : Nat) : Option (List Nat) :=
  if n < 256 then some [n] else none

/-- `str.encode('ascii')`: the code points, provided all are ASCII. -/
def asciiBytes (s : String) : Option (List Nat) :=
  if s.toList.all (fun c => c.toNat < 128) then some (s.toList.map Char.toNat)
  else none

/-- One big-endian 32-bit instruction word as `struct.pack('>I', w)`
emits it. -/
def pack32 (w : Nat) : Option (List Nat) :=
  if w < 4294967296 then
    some [w / 16777216 % 256, w / 65536 % 256, w / 256 % 256, w % 256]
  else none

/-- String-table entries: `u8` length then ASCII bytes, per string. -/
def stringEntries : List String → Option (List Nat)
  | [] => some []
  | s :: rest =>
    match pack8 s.length, asciiBytes s, stringEntries rest with
    | some l, some b, some r => some (l ++ b ++ r)
    | _, _, _ => none

/-- The code words packed big-endian. -/
def packWords : List Nat → Option (List Nat)
  | [] => some []
  | w :: rest =>
    match pack32 w, packWords rest with
    | some b, some r => some (b ++ r)
    | _, _ => none

/-- `Compiler.assemble`: `u16` string count, the string entries, `u16`
code-word count, then the packed code. -/
def assembleBytes (code : List Nat) (strings : List String) : Option (List Nat) :=
  match pack16 strings.length, stringEntries strings, pack16 code.length, packWords code with
  | some a, some b, some c, some dd => some (a ++ b ++ c ++ dd)
  | _, _, _, _ => none

/-- The full byte pipeline `Compiler(Parser(src).parse(), capture=arg)
.assemble()`. -/
def pipelineBytes (fuel : Nat) (src : String) (captureArg : Bool) : Option (List Nat) :=
  match compileSrcArg fuel src captureArg with
  | none => none
  | some (code, strings) => assembleBytes code strings

/-! ## Specification-side definitions and concrete inputs for the claims -/

/-- Range test on a class entry. -/
def isRange : ClassItem → Bool
  | .range _ _ => true
  | .single _ => false

/-- Specification-side reading of the class lexer: the same
character-level parse as `lexRangeLoop`, but collecting the entries in
the single left-to-right order in which they appear between the
brackets.  Used only to compare the source's payload order against the
spec's words. -/
def classEntriesInOrder (code : List Char) : Nat → Nat → Option (Except String (List ClassItem × Nat))
  | 0, _ => none
  | fuel + 1, pos =>
    if peekc code pos = some ']' then some (.ok ([], pos + 1))
    else
      match lexChar code fuel pos with
      | none => none
      | some (.error e) => some (.error e)
      | some (.ok (left, p1)) =>
        if peekc code p1 = some '-' then
          match lexChar code fuel (p1 + 1) with
          | none => none
          | some (.error e) => some (.error e)
          | some (.ok (right, p2)) =>
            match classEntriesInOrder code fuel p2 with
            | none => none
            | some (.error e) => some (.error e)
            | some (.ok (es, p3)) => some (.ok (.range left right :: es, p3))
        else
          match classEntriesInOrder code fuel p1 with
          | none => none
          | some (.error e) => some (.error e)
          | some (.ok (es, p3)) => some (.ok (.single left :: es, p3))

/-- Scenario S4 source: `S <- 'a' / 'b'`. -/
def srcS4 : String := "S <- " ++ q1 "a" ++ " / " ++ q1 "b"

/-- A capture block inside a negative predicate: `S <- !%{ 'a' }`. -/
def srcC4 : String := "S <- !%" ++ String.mk [obC] ++ " " ++ q1 "a" ++ " " ++ String.mk [cbC]

/-- A grammar with a duplicate definition:
`S <- A`, `A <- 'a'`, `A <- 'b'`. -/
def srcDup : String :=
  "S <- A" ++ String.mk [nlC] ++ "A <- " ++ q1 "a" ++ String.mk [nlC] ++ "A <- " ++ q1 "b"

/-- The and-predicate grammar `S <- &'a'`. -/
def srcAnd : String := "S <- &" ++ q1 "a"

/-- The two-character literal grammar `S <- 'ab'`. -/
def srcAb : String := "S <- " ++ q1 "ab"

/-! ## Claims -/

/-- C1.  The claim states that `matchLiteral` succeeds iff the whole
literal matches at the cursor, consuming its full length, restoring the
cursor otherwise.  The code instead advances per character, skipping
literal characters that mismatch: against input `b` the literal `ab`
"succeeds" with value `b` after consuming one character, and against
input `ax` it succeeds with value `a`; the same behaviour reaches the
public entry point (`S <- 'ab'` matches data `b`).  This theorem
evaluates the code at those failing inputs. -/
theorem c1_matchLiteral_partial_subset_succeeds :
    matchLiteral "ab" ⟨['b'], 0⟩ = (true, some (.str ['b']), ⟨['b'], 1⟩) ∧
    matchLiteral "ab" ⟨['a', 'x'], 0⟩ = (true, some (.str ['a']), ⟨['a', 'x'], 1⟩) ∧
    matchSrc 50 srcAb "S" "b" = some (.ok (.bv true (some (.str ['b'])), ⟨['b'], 1⟩)) :=
  ⟨rfl, rfl, rfl⟩

/-- C5.  The claim states the direct matcher gives `And(x)` the
`Not(Not(x))` semantics; but `Match.matchAtom` has no branch for `And`
and raises `Unexpected atom`.  Evaluated here both at the dispatch
level and through a full `S <- &'a'` run on input `a` (where the claim
demands success without consumption). -/
theorem c5_matcher_raises_on_and_node :
    matchGo [("S", .Expression [.And (.Literal "a" false)])] 10 ⟨['a'], 0⟩
      (.atom (.And (.Literal "a" false))) = some (.error "Unexpected atom") ∧
    matchSrc 50 srcAnd "S" "a" = some (.error "Unexpected atom") :=
  ⟨rfl, rfl⟩

/-- C4.  Compiling `S <- !%{ 'a' }` emits `CAP_OPEN 1 0`, `CAPCHAR` and
`CAP_CLOSE 1 0` at indices 3, 5 and 6, strictly inside the `Not` body
(the region between the `CHOICE 7` at index 2 and the `COMMIT 1; FAIL`
at indices 7-8): the `Capture` context manager emits and re-enables
capturing unconditionally, defeating `DisableCapture`.  The claim (and
spec invariant 7) forbids any capture instruction there. -/
theorem c4_not_body_emits_capture_instructions :
    compileSrc 50 srcC4 =
      some ([gen1 OP_CALL 2, gen1 OP_JUMP 10, gen1 OP_CHOICE 7, gen2 OP_CAP_OPEN 1 0,
        gen1 OP_CHAR 97, gen0 OP_CAPCHAR, gen2 OP_CAP_CLOSE 1 0, gen1 OP_COMMIT 1,
        gen0 OP_FAIL, gen0 OP_RETURN, gen0 OP_HALT], []) := rfl

/-- C6.  `S <- 'a' / 'b'` compiles to exactly
`CALL +2; JUMP +7; CHOICE +3; CHAR a; COMMIT +2; CHAR b; RETURN; HALT`
with an empty string table: the last alternative is bare and the commit
points one past it. -/
theorem c6_compile_ordered_choice :
    compileSrc 50 srcS4 =
      some ([gen1 OP_CALL 2, gen1 OP_JUMP 7, gen1 OP_CHOICE 3, gen1 OP_CHAR 97,
        gen1 OP_COMMIT 2, gen1 OP_CHAR 98, gen0 OP_RETURN, gen0 OP_HALT], []) := rfl

/-- C10.  The `capture` constructor argument of `Compiler` is never
read (`__init__` sets `self.capture = False` unconditionally), so the
generated words, string table and serialized bytes agree for any two
argument values on any source. -/
theorem c10_capture_argument_ignored :
    ∀ (fuel : Nat) (src : String) (b1 b2 : Bool),
      compileSrcArg fuel src b1 = compileSrcArg fuel src b2 ∧
      pipelineBytes fuel src b1 = pipelineBytes fuel src b2 := by
  intro fuel src b1 b2
  exact ⟨rfl, rfl⟩

/-- C8.  The parse-compile-assemble pipeline is a pure function of the
source (the embedding threads every state explicitly and no step
consults anything besides `src` and the fuel), so two runs on identical
source yield identical bytes. -/
theorem c8_serialize_deterministic :
    ∀ (fuel : Nat) (src : String) (arg : Bool) (o1 o2 : Option (List Nat)),
      pipelineBytes fuel src arg = o1 → pipelineBytes fuel src arg = o2 → o1 = o2 := by
  intro _ _ _ _ _ h1 h2
  rw [← h1, ← h2]

/-- Witness for C8: the theorem applied at `S <- 'a' / 'b'`, the second
hypothesis discharged by evaluating the pipeline to its concrete
36-byte output. -/
theorem c8_serialize_deterministic_witness :
    pipelineBytes 50 srcS4 false =
      some [0, 0, 0, 8, 96, 0, 0, 2, 88, 0, 0, 7, 24, 0, 0, 3, 8, 0, 0, 97, 32, 0, 0, 2,
        8, 0, 0, 98, 104, 0, 0, 0, 0, 0, 0, 0] :=
  c8_serialize_deterministic 50 srcS4 false _ _ rfl rfl

/-- C2 counterexample.  In the class `[_a-z]` the singleton `_` is
written first, yet the CLASS payload lists the range `a-z` first:
`lexRange` returns `ranges + chars`, not the source order. -/
theorem c2_class_payload_not_source_order :
    lex "[_a-z]".toList 50 ⟨0, 0, 0⟩ =
      some (.ok (⟨.CLASS, .items [.range (some 'a') (some 'z'), .single (some '_')], 0, 0⟩,
        ⟨6, 0, 0⟩)) ∧
    [ClassItem.range (some 'a') (some 'z'), .single (some '_')] ≠
      [ClassItem.single (some '_'), .range (some 'a') (some 'z')] :=
  ⟨rfl, by decide⟩

/-- Characters of the unterminated-class input `[ab`: no position holds
`]`, a backslash or a dash (positions past the end hold nothing). -/
theorem unterm_no_char (pos : Nat) (ch : Char) (h1 : ch ≠ '[') (h2 : ch ≠ 'a') (h3 : ch ≠ 'b') :
    peekc "[ab".toList pos ≠ some ch := by
  have hl : "[ab".toList = ['[', 'a', 'b'] := rfl
  rw [peekc, hl]
  match pos with
  | 0 => simp only [List.get?_cons_zero]; exact fun h => h1 (Option.some.inj h).symm
  | 1 => simp only [List.get?_cons_succ, List.get?_cons_zero]
         exact fun h => h2 (Option.some.inj h).symm
  | 2 => simp only [List.get?_cons_succ, List.get?_cons_zero]
         exact fun h => h3 (Option.some.inj h).symm
  | n + 3 => simp only [List.get?_cons_succ, List.get?_nil]; exact fun h => Option.noConfusion h

/-- On `[ab` the class loop never meets its exit guard: every step
consumes one character (or runs past the end, where `lexChar` still
returns and advances) and recurses, so every fuel runs out. -/
theorem lexRangeLoop_unterm_none : ∀ (fuel pos : Nat) (r c : List ClassItem),
    lexRangeLoop "[ab".toList fuel pos r c = none := by
  intro fuel
  induction fuel with
  | zero => intro pos r c; rfl
  | succ n ih =>
    intro pos r c
    have hrb : peekc "[ab".toList pos ≠ some ']' :=
      unterm_no_char pos ']' (by decide) (by decide) (by decide)
    have hbs : peekc "[ab".toList pos ≠ some bsC :=
      unterm_no_char pos bsC (by decide) (by decide) (by decide)
    have hd : peekc "[ab".toList (pos + 1) ≠ some '-' :=
      unterm_no_char (pos + 1) '-' (by decide) (by decide) (by decide)
    simp only [lexRangeLoop, if_neg hrb]
    rw [lexChar, if_neg hbs]
    simp only [if_neg hd]
    exact ih (pos + 1) r (c ++ [.single (peekc "[ab".toList pos)])

/-- C3.  The claim states lexing terminates on every input; but on the
unterminated class `[ab` the `while not self.testc(']')` loop of
`lexRange` has no end-of-input guard and runs forever (the cursor grows
without bound, the guard can never hold).  In the fuel model: requesting
the next token at the start of `[ab` exhausts every fuel. -/
theorem c3_lexer_diverges_on_unterminated_class :
    ∀ fuel : Nat, lex "[ab".toList fuel ⟨0, 0, 0⟩ = none := by
  intro fuel
  match fuel with
  | 0 => rfl
  | n + 1 =>
    have h : lex "[ab".toList (n + 1) ⟨0, 0, 0⟩ =
        (match lexRangeLoop "[ab".toList (n + 1) 1 [] [] with
          | none => none
          | some (.error e) => some (.error e)
          | some (.ok (items, p2)) =>
            some (.ok (⟨.CLASS, .items items, 0, 0⟩, ⟨p2, 0, 0⟩))) := rfl
    rw [h, lexRangeLoop_unterm_none]

/-- The entry loop of `matchClass` is first-match-wins: it returns on
the first entry (in payload order) matching the current character. -/
theorem matchClassLoop_find : ∀ (items : List ClassItem) (cur : Char) (st : MState),
    matchClassLoop cur st items =
      (match items.find? (itemMatches cur) with
        | some _ => (true, some (.str [cur]), madvance st 1)
        | none => (false, none, st)) := by
  intro items cur st
  induction items with
  | nil => rfl
  | cons it rest ih =>
    by_cases h : itemMatches cur it
    · simp [matchClassLoop, h, List.find?_cons]
    · simp only [matchClassLoop, if_neg h, List.find?_cons, Bool.not_eq_true] at *
      simp [h, ih]

/-- Every terminating run of the class-lexer loop returns the range
entries (in appearance order) followed by the singleton entries (in
appearance order): the accumulated payload is `ranges + chars`, related
here to the one-list in-order collection `classEntriesInOrder` over the
same character parse. -/
theorem lexRangeLoop_entries : ∀ (fuel : Nat) (code : List Char) (pos : Nat)
    (r c out : List ClassItem) (p : Nat),
    lexRangeLoop code fuel pos r c = some (.ok (out, p)) →
    ∃ es, classEntriesInOrder code fuel pos = some (.ok (es, p)) ∧
      out = (r ++ es.filter isRange) ++ (c ++ es.filter (fun e => !isRange e)) := by
  intro fuel
  induction fuel with
  | zero =>
    intro code pos r c out p h
    exact absurd h (by simp [lexRangeLoop])
  | succ n ih =>
    intro code pos r c out p h
    rw [lexRangeLoop] at h
    by_cases hb : peekc code pos = some ']'
    · rw [if_pos hb] at h
      injection h with h
      injection h with h
      injection h with h1 h2
      refine ⟨[], ?_, ?_⟩
      · rw [classEntriesInOrder, if_pos hb, h2]
      · simp [← h1]
    · rw [if_neg hb] at h
      rw [classEntriesInOrder, if_neg hb]
      match hc : lexChar code n pos with
      | none => rw [hc] at h; exact absurd h (by simp)
      | some (.error e) => rw [hc] at h; exact absurd h (by simp)
      | some (.ok (left, p1)) =>
        rw [hc] at h
        dsimp only at h ⊢
        by_cases hd : peekc code p1 = some '-'
        · rw [if_pos hd] at h
          rw [if_pos hd]
          match hc2 : lexChar code n (p1 + 1) with
          | none => rw [hc2] at h; exact absurd h (by simp)
          | some (.error e) => rw [hc2] at h; exact absurd h (by simp)
          | some (.ok (right, p2)) =>
            rw [hc2] at h
            dsimp only at h ⊢
            obtain ⟨es, hes, hout⟩ := ih code p2 (r ++ [.range left right]) c out p h
            refine ⟨.range left right :: es, ?_, ?_⟩
            · rw [hes]
            · simp only [List.filter_cons, isRange, Bool.not_true, hout]
              simp
        · rw [if_neg hd] at h
          rw [if_neg hd]
          obtain ⟨es, hes, hout⟩ := ih code p1 r (c ++ [.single left]) out p h
          refine ⟨.single left :: es, ?_, ?_⟩
          · rw [hes]
          · simp only [List.filter_cons, isRange, Bool.not_false, hout]
            simp

/-- C2, amended.  The CLASS payload lists all range entries in their
left-to-right order of appearance, followed by all singleton entries in
their left-to-right order of appearance (not the interleaved source
order); the direct matcher then tries the payload entries in payload
order, first match wins. -/
theorem c2_amended_ranges_then_singles :
    (∀ (fuel : Nat) (code : List Char) (pos : Nat) (out : List ClassItem) (p : Nat),
        lexRangeLoop code fuel pos [] [] = some (.ok (out, p)) →
        ∃ es, classEntriesInOrder code fuel pos = some (.ok (es, p)) ∧
          out = es.filter isRange ++ es.filter (fun e => !isRange e)) ∧
    (∀ (items : List ClassItem) (st : MState),
        matchClass items st =
          match mcurrent st with
          | none => (false, none, st)
          | some cur =>
            match items.find? (itemMatches cur) with
            | some _ => (true, some (.str [cur]), madvance st 1)
            | none => (false, none, st)) := by
  constructor
  · intro fuel code pos out p h
    obtain ⟨es, hes, hout⟩ := lexRangeLoop_entries fuel code pos [] [] out p h
    exact ⟨es, hes, by simpa using hout⟩
  · intro items st
    rw [matchClass]
    cases mcurrent st with
    | none => rfl
    | some cur => exact matchClassLoop_find items cur st

/-- Witness for the amended C2: on the class body `_a-z]` the payload
is the filter split of the in-order entries, and the payload-order
matcher accepts `_` through the singleton entry placed after the
range. -/
theorem c2_amended_witness :
    (∃ es, classEntriesInOrder "_a-z]".toList 50 0 = some (.ok (es, 5)) ∧
      [ClassItem.range (some 'a') (some 'z'), .single (some '_')] =
        es.filter isRange ++ es.filter (fun e => !isRange e)) ∧
    matchClass [ClassItem.range (some 'a') (some 'z'), .single (some '_')] ⟨['_'], 0⟩ =
      (true, some (.str ['_']), ⟨['_'], 1⟩) := by
  constructor
  · exact c2_amended_ranges_then_singles.1 50 "_a-z]".toList 0 _ 5 rfl
  · rw [c2_amended_ranges_then_singles.2]
    rfl

/-- Bindings whose names all differ from `n` contribute nothing to a
`find?` for `n`. -/
theorem find_skip {α : Type} (l : List (String × α)) (n : String)
    (h : ∀ p ∈ l, p.1 ≠ n) (l2 : List (String × α)) :
    (l ++ l2).find? (fun p => p.1 = n) = l2.find? (fun p => p.1 = n) := by
  induction l with
  | nil => rfl
  | cons a t ih =>
    have ha : ¬(a.1 = n) := h a (List.mem_cons_self a t)
    simp only [List.cons_append, List.find?_cons, decide_eq_false ha]
    exact ih (fun p hp => h p (List.mem_cons_of_mem a hp))

/-- Dictionary semantics of `grammarAsDict`: the last binding of a name
wins. -/
theorem gdict_last (pre post : List (String × AST)) (n : String) (e : AST)
    (hpost : ∀ p ∈ post, p.1 ≠ n) :
    gdict (pre ++ (n, e) :: post) n = some e := by
  rw [gdict]
  rw [show (pre ++ (n, e) :: post).reverse = post.reverse ++ ((n, e) :: pre.reverse) by simp]
  rw [find_skip post.reverse n (fun p hp => hpost p (List.mem_reverse.mp hp))]
  simp [List.find?_cons]

/-- C9.  Duplicate definitions: (1) the grammar dictionary resolves a
name to its last binding; (2) the matcher's `Identifier` dispatch goes
through exactly that lookup (`KeyError` when absent); (3) on the
duplicate grammar `S <- A / A <- 'a' / A <- 'b'` the matcher accepts
`b` and rejects `a`; and (4) the compiler patches the call site for `A`
(index 2) to `CALL +4`, the address 6 of the last-emitted `A` body
(`CHAR b` at 6), not the earlier body at 4. -/
theorem c9_duplicate_definition_overrides :
    (∀ (pre post : List (String × AST)) (n : String) (e : AST),
        (∀ p ∈ post, p.1 ≠ n) → gdict (pre ++ (n, e) :: post) n = some e) ∧
    (∀ (g : List (String × AST)) (fuel : Nat) (st : MState) (n : String),
        matchGo g (fuel + 1) st (.atom (.Identifier n)) =
          match gdict g n with
          | none => some (.error "KeyError")
          | some e => matchGo g fuel st (.atom e)) ∧
    matchSrc 50 srcDup "S" "b" = some (.ok (.bv true (some (.str ['b'])), ⟨['b'], 1⟩)) ∧
    matchSrc 50 srcDup "S" "a" = some (.ok (.bv false none, ⟨['a'], 0⟩)) ∧
    compileSrc 50 srcDup =
      some ([gen1 OP_CALL 2, gen1 OP_JUMP 8, gen1 OP_CALL 4, gen0 OP_RETURN,
        gen1 OP_CHAR 97, gen0 OP_RETURN, gen1 OP_CHAR 98, gen0 OP_RETURN,
        gen0 OP_HALT], []) := by
  refine ⟨gdict_last, ?_, rfl, rfl, rfl⟩
  intro g fuel st n
  rfl

/-- Witness for C9: the lookup part applied to a concrete dictionary
with a duplicate binding of `A`. -/
theorem c9_duplicate_definition_overrides_witness :
    gdict ([("A", AST.Literal "a" false)] ++ ("A", AST.Literal "b" false) :: [("B", AST.Dot false)])
      "A" = some (AST.Literal "b" false) :=
  c9_duplicate_definition_overrides.1 [("A", .Literal "a" false)] [("B", .Dot false)]
    "A" (.Literal "b" false) (by decide)


/-- The interning step of `_str` keeps the table duplicate-free. -/
theorem internOne_nodup (l : List String) (s : String) (h : l.Nodup) :
    (if s ∈ l then l else l ++ [s]).Nodup := by
  split
  · exact h
  · next hs => simp [List.nodup_append, h, hs]

/-- String-table effect of `_str`. -/
theorem strOf_strings (st : CState) (s : String) :
    (strOf st s).1.strings = if s ∈ st.strings then st.strings else st.strings ++ [s] := rfl

/-- `emit` leaves the string table alone. -/
theorem emit_strings (st : CState) (i : Nat) : (emit st i).strings = st.strings := rfl

/-- `compileLiteral` never touches the string table. -/
theorem compileLiteralSt_strings (st : CState) (s : String) (cap : Bool) :
    (compileLiteralSt st s cap).strings = st.strings := by
  rw [compileLiteralSt]
  generalize s.toList = l
  induction l generalizing st with
  | nil => rfl
  | cons c r ih =>
    rw [List.foldl_cons]
    rw [ih]
    dsimp only
    split <;> rfl

/-- Patching `code` leaves the string table alone. -/
theorem withCode_strings (st : CState) (c : List Nat) :
    ({ st with code := c } : CState).strings = st.strings := rfl

/-- Toggling the capture flag leaves the string table alone. -/
theorem withCapture_strings (st : CState) (b : Bool) :
    ({ st with capture := b } : CState).strings = st.strings := rfl

/-- Recording a callsite leaves the string table alone. -/
theorem withCallsites_strings (st : CState) (c : List (String × Nat)) :
    ({ st with callsites := c } : CState).strings = st.strings := rfl

/-- `compileAny` never touches the string table. -/
theorem compileAnySt_strings (st : CState) (cap : Bool) :
    (compileAnySt st cap).strings = st.strings := by
  simp only [compileAnySt]
  split <;> rfl

/-- `compileRange` never touches the string table. -/
theorem compileRangeSt_strings (st : CState) (cap : Bool) (lo hi : Option Char) :
    (compileRangeSt st cap lo hi).strings = st.strings := by
  cases lo with
  | none => cases hi <;> rfl
  | some l =>
    cases hi with
    | none => rfl
    | some h =>
      simp only [compileRangeSt]
      split <;> rfl

/-- `compileRangeOrLiteral` never touches the string table. -/
theorem compileRangeOrLiteral_strings (st : CState) (cap : Bool) (it : ClassItem) :
    (compileRangeOrLiteral st cap it).strings = st.strings := by
  rcases it with ⟨lo, hi⟩ | ⟨c⟩
  · exact compileRangeSt_strings st cap lo hi
  · cases c
    · rfl
    · exact compileLiteralSt_strings st _ cap

/-- Class choice compilation never touches the string table. -/
theorem compChoicesC_strings (st : CState) (cap : Bool) (items : List ClassItem) :
    (compChoicesC st cap items).strings = st.strings := by
  induction items generalizing st with
  | nil => rfl
  | cons c rest ih =>
    cases rest with
    | nil => exact compileRangeOrLiteral_strings st cap c
    | cons r rs =>
      simp only [compChoicesC, withCode_strings, ih, emit_strings,
        compileRangeOrLiteral_strings]

/-- `compileThrow` interns the label name. -/
theorem compileThrowSt_strings (st : CState) (name : String) :
    (compileThrowSt st name).strings =
      (if name ∈ st.strings then st.strings else st.strings ++ [name]) := rfl

/-- `compileThrow` keeps the table duplicate-free. -/
theorem compileThrowSt_nodup (st : CState) (name : String) (h : st.strings.Nodup) :
    (compileThrowSt st name).strings.Nodup := by
  rw [compileThrowSt_strings]
  exact internOne_nodup st.strings name h

mutual

/-- Duplicate-freedom of the string table is preserved by every
`compileAtom` dispatch: all table growth goes through `_str`. -/
theorem compileAtom_nodup : ∀ (a : AST) (st st' : CState),
    compileAtom st a = some st' → st.strings.Nodup → st'.strings.Nodup
  | .Literal s cap => by
    intro st st' h hn
    rw [compileAtom] at h
    cases h
    rw [compileLiteralSt_strings]; exact hn
  | .Str s => by
    intro st st' h hn
    simp only [compileAtom] at h
    cases h
    rw [emit_strings, strOf_strings]
    exact internOne_nodup st.strings s hn
  | .Dot cap => by
    intro st st' h hn
    rw [compileAtom] at h
    cases h
    rw [compileAnySt_strings]; exact hn
  | .Not a => by
    intro st st' h hn
    simp only [compileAtom] at h
    split at h
    · exact absurd h (by simp)
    · next st2 heq =>
      cases h
      have h2 := compileAtom_nodup a _ _ heq hn
      simpa [emit_strings, withCode_strings, withCapture_strings] using h2
  | .And a => by
    intro st st' h hn
    simp only [compileAtom] at h
    split at h
    · exact absurd h (by simp)
    · next st2 heq =>
      cases h
      have h2 := compileAtom_nodup a _ _ heq hn
      simpa [emit_strings, withCode_strings, withCapture_strings] using h2
  | .Star a => by
    intro st st' h hn
    simp only [compileAtom] at h
    split at h
    · exact absurd h (by simp)
    · next st2 heq =>
      cases h
      have h2 := compileAtom_nodup a _ _ heq hn
      simpa [emit_strings, withCode_strings] using h2
  | .Plus a => by
    intro st st' h hn
    simp only [compileAtom] at h
    split at h
    · exact absurd h (by simp)
    · next stP heq =>
      split at h
      · exact absurd h (by simp)
      · next st2 heq2 =>
        cases h
        have h1 := compileAtom_nodup a _ _ heq hn
        have h2 := compileAtom_nodup a _ _ heq2 (by simpa [emit_strings] using h1)
        simpa [emit_strings, withCode_strings] using h2
  | .Question a => by
    intro st st' h hn
    simp only [compileAtom] at h
    split at h
    · exact absurd h (by simp)
    · next st2 heq =>
      cases h
      have h2 := compileAtom_nodup a _ _ heq hn
      simpa [emit_strings, withCode_strings] using h2
  | .Class items cap => by
    intro st st' h hn
    simp only [compileAtom] at h
    split at h
    · cases h
      rw [compileRangeOrLiteral_strings]; exact hn
    · cases h
      rw [compChoicesC_strings]; exact hn
  | .Identifier n => by
    intro st st' h hn
    simp only [compileAtom] at h
    cases h
    exact hn
  | .Sequence l => by
    intro st st' h hn
    rw [compileAtom] at h
    exact compileSeqL_nodup l st st' h hn
  | .Expression alts => by
    intro st st' h hn
    rw [compileAtom] at h
    exact compChoicesE_nodup alts st st' h hn
  | .Label name sub => by
    intro st st' h hn
    simp only [compileAtom] at h
    split at h
    · exact absurd h (by simp)
    · next st2 heq =>
      cases h
      have h2 := compileAtom_nodup sub _ _ heq hn
      apply compileThrowSt_nodup
      simpa [emit_strings] using h2
  | .Throw name => by
    intro st st' h hn
    simp only [compileAtom] at h
    cases h
    exact compileThrowSt_nodup st name hn
  | .CaptureBlock a => by
    intro st st' h hn
    simp only [compileAtom] at h
    split at h
    · exact absurd h (by simp)
    · next st2 heq =>
      cases h
      have h2 := compileAtom_nodup a _ _ heq hn
      simpa [emit_strings, withCapture_strings] using h2
  | .CaptureNode a => by
    intro st st' h hn
    simp only [compileAtom] at h
    split at h
    · next n =>
      cases h
      simp only [emit, strOf]
      apply internOne_nodup
      apply internOne_nodup
      exact internOne_nodup st.strings n hn
    · exact absurd h (by simp)
  | .ListN l => by
    intro st st' h hn
    simp only [compileAtom] at h
    split at h
    · exact absurd h (by simp)
    · next st2 heq =>
      cases h
      rw [emit_strings]
      exact compileSeqL_nodup l _ _ heq hn
  | .pyNone => by
    intro st st' h hn
    rw [compileAtom] at h
    exact absurd h (by simp)
  | .rawList l => by
    intro st st' h hn
    rw [compileAtom] at h
    exact absurd h (by simp)

/-- Table duplicate-freedom through the sequence loop. -/
theorem compileSeqL_nodup : ∀ (l : List AST) (st st' : CState),
    compileSeqL st l = some st' → st.strings.Nodup → st'.strings.Nodup
  | [] => by
    intro st st' h hn
    rw [compileSeqL] at h
    cases h
    exact hn
  | a :: rest => by
    intro st st' h hn
    rw [compileSeqL] at h
    split at h
    · exact absurd h (by simp)
    · next st1 heq =>
      exact compileSeqL_nodup rest _ _ h (compileAtom_nodup a _ _ heq hn)

/-- Table duplicate-freedom through the ordered-choice loop. -/
theorem compChoicesE_nodup : ∀ (l : List AST) (st st' : CState),
    compChoicesE st l = some st' → st.strings.Nodup → st'.strings.Nodup
  | [] => by
    intro st st' h hn
    rw [compChoicesE] at h
    cases h
    exact hn
  | [c] => by
    intro st st' h hn
    rw [compChoicesE] at h
    exact compileAtom_nodup c st st' h hn
  | c :: c2 :: rest => by
    intro st st' h hn
    rw [compChoicesE] at h
    split at h
    · exact absurd h (by simp)
    · next st2 heq =>
      dsimp only at h
      split at h
      · exact absurd h (by simp)
      · next st5 heq2 =>
        cases h
        have h2 := compileAtom_nodup c _ _ heq hn
        have h5 := compChoicesE_nodup (c2 :: rest) _ _ heq2
          (by simpa [emit_strings] using h2)
        simpa using h5
end

/-- The definition loop of `genCode` keeps the table duplicate-free. -/
theorem genDefs_nodup : ∀ (defs : List PDef) (st : CState) (addrs : List (String × Nat))
    (size : Nat) (st' : CState) (addrs' : List (String × Nat)) (size' : Nat),
    genDefs st addrs size defs = some (st', addrs', size') →
    st.strings.Nodup → st'.strings.Nodup := by
  intro defs
  induction defs with
  | nil =>
    intro st addrs size st' addrs' size' h hn
    rw [genDefs] at h
    cases h
    exact hn
  | cons d rest ih =>
    intro st addrs size st' addrs' size' h hn
    rw [genDefs] at h
    split at h
    · exact absurd h (by simp)
    · next st1 heq =>
      exact ih _ _ _ _ _ _ h (by simpa [emit_strings] using compileAtom_nodup d.expr _ _ heq hn)

/-- Whole-compilation invariant: the emitted string table holds no
duplicates. -/
theorem genCode_nodup : ∀ (capInit : Bool) (g : List PDef) (code : List Nat) (tbl : List String),
    genCode capInit g = some (code, tbl) → tbl.Nodup := by
  intro capInit g code tbl h
  match g with
  | [] => rw [genCode] at h; exact absurd h (by simp)
  | d0 :: rest =>
    rw [genCode] at h
    dsimp only at h
    cases hcaps : hasCapOpsL (List.map (fun d => d.expr) (d0 :: rest)) with
    | true =>
      simp only [hcaps, eq_self_iff_true, if_true] at h
      split at h
      · exact absurd h (by simp)
      · next st4 addrs size heq =>
        split at h
        · exact absurd h (by simp)
        · next codeF heq2 =>
          cases h
          have h4 := genDefs_nodup (d0 :: rest) _ [] 0 st4 addrs size heq
            (by
              simp only [emit, strOf]
              apply internOne_nodup
              exact List.nodup_nil)
          simp only [emit, strOf]
          apply internOne_nodup
          exact h4
    | false =>
      simp only [hcaps, Bool.false_eq_true, if_false] at h
      split at h
      · exact absurd h (by simp)
      · next st4 addrs size heq =>
        split at h
        · exact absurd h (by simp)
        · next codeF heq2 =>
          cases h
          have h4 := genDefs_nodup (d0 :: rest) _ [] 0 st4 addrs size heq List.nodup_nil
          simpa [emit_strings] using h4

/-- C7.  The string table of every successfully compiled grammar is
duplicate-free, and `_str` is stable: a first request for `s` appends it
and returns the old length, any request for a present `s` returns its
(first) index leaving the table alone, and an index never moves when
later strings are appended. -/
theorem c7_string_table_nodup_and_stable :
    (∀ (capInit : Bool) (g : List PDef) (code : List Nat) (tbl : List String),
        genCode capInit g = some (code, tbl) → tbl.Nodup) ∧
    (∀ (st : CState) (s : String), s ∉ st.strings →
        strOf st s = ({ st with strings := st.strings ++ [s] }, st.strings.length)) ∧
    (∀ (st : CState) (s : String), s ∈ st.strings →
        strOf st s = (st, st.strings.indexOf s)) ∧
    (∀ (l t : List String) (s : String), s ∈ l → (l ++ t).indexOf s = l.indexOf s) := by
  refine ⟨genCode_nodup, ?_, ?_, ?_⟩
  · intro st s hs
    rw [strOf]
    rw [if_neg hs]
    refine congrArg (Prod.mk _) ?_
    rw [List.indexOf_append_of_not_mem hs]
    simp [List.indexOf_cons_self]
  · intro st s hs
    rw [strOf]
    rw [if_pos hs]
  · intro l t s hs
    exact List.indexOf_append_of_mem hs

/-- Witness for C7: a concrete capture grammar compiles to the table
`[S, A, B]`, and the `_str` facts evaluated on concrete tables. -/
theorem c7_string_table_witness :
    (["S", "A", "B"] : List String).Nodup ∧
    strOf ⟨[], [], false, ["S"]⟩ "A" = (⟨[], [], false, ["S", "A"]⟩, 1) ∧
    strOf ⟨[], [], false, ["S", "A"]⟩ "A" = (⟨[], [], false, ["S", "A"]⟩, 1) ∧
    (["S", "A"] ++ ["B"] : List String).indexOf "A" = ["S", "A"].indexOf "A" := by
  refine ⟨?_, ?_, ?_, ?_⟩
  · exact c7_string_table_nodup_and_stable.1 false
      [⟨"S", .Expression [.Sequence [.CaptureNode (.Identifier "A"), .CaptureNode (.Identifier "B")]]⟩,
       ⟨"A", .Expression [.Literal "a" false]⟩,
       ⟨"B", .Expression [.Literal "b" false]⟩] _ ["S", "A", "B"] rfl
  · exact c7_string_table_nodup_and_stable.2.1 ⟨[], [], false, ["S"]⟩ "A" (by decide)
  · exact c7_string_table_nodup_and_stable.2.2.1 ⟨[], [], false, ["S", "A"]⟩ "A" (by decide)
  · exact c7_string_table_nodup_and_stable.2.2.2 ["S", "A"] ["B"] "A" (by decide)

/-- Witness for C3: the divergence theorem applied at fuel 500. -/
theorem c3_lexer_diverges_witness : lex "[ab".toList 500 ⟨0, 0, 0⟩ = none :=
  c3_lexer_diverges_on_unterminated_class 500

/-- Witness for C10: the theorem applied to `S <- 'a' / 'b'` with the
two argument values. -/
theorem c10_capture_argument_ignored_witness :
    compileSrcArg 50 srcS4 true = compileSrcArg 50 srcS4 false :=
  (c10_capture_argument_ignored 50 srcS4 true false).1
